import Mathlib

/-!
Verification of the selection / transform / attribute-synchronization subsystem
of the svg-generator editor.  Definitions are shallow embeddings of the
TypeScript source (src/components/Editor.tsx, src/unnamed/part_000); JavaScript
numbers are modelled as rationals, DOM element trees as a mutual inductive
rose tree, and the ad-hoc regular expressions of the source as deterministic
scanners (the character classes involved are disjoint, so greedy matching
with backtracking coincides with maximal munch).
-/

namespace SvgGen

/-! ## Decimal digits -/

/-- Character for a single decimal digit, as in JavaScript number printing. -/
def digitChar (d : ℕ) : Char := Char.ofNat (48 + d)

/-- Fuel-driven most-significant-first decimal digits of a natural number. -/
def natDigitsAux : ℕ → ℕ → List Char
  | 0, _ => []
  | fu + 1, n => if n < 10 then [digitChar n]
                 else natDigitsAux fu (n / 10) ++ [digitChar (n % 10)]

/-- Decimal digits of `n`, most significant first; `0` prints as `"0"`. -/
def natDigits (n : ℕ) : List Char := natDigitsAux (n + 1) n

/-- Exactly `k` decimal digits of `n` (mod `10^k`), leading zeros kept. -/
def padDigits (n : ℕ) : ℕ → List Char
  | 0 => []
  | k + 1 => padDigits (n / 10) k ++ [digitChar (n % 10)]

/-- Value of a most-significant-first list of decimal digit characters. -/
def digitsVal (l : List Char) : ℕ :=
  l.foldl (fun a c => a * 10 + (c.toNat - 48)) 0

/-- Character for a single hexadecimal digit, lowercase as JavaScript
`toString(16)` produces. -/
def hexDigitChar (d : ℕ) : Char :=
  if d < 10 then digitChar d else Char.ofNat (87 + d)

/-- Fuel-driven most-significant-first hexadecimal digits. -/
def hexDigitsAux : ℕ → ℕ → List Char
  | 0, _ => []
  | fu + 1, n => if n < 16 then [hexDigitChar n]
                 else hexDigitsAux fu (n / 16) ++ [hexDigitChar (n % 16)]

/-- Hexadecimal digits of `n`, most significant first, lowercase. -/
def hexDigits (n : ℕ) : List Char := hexDigitsAux (n + 1) n

/-- Exactly `k` hexadecimal digits of `n` (mod `16^k`), leading zeros kept. -/
def padHex (n : ℕ) : ℕ → List Char
  | 0 => []
  | k + 1 => padHex (n / 16) k ++ [hexDigitChar (n % 16)]

/-! ## JavaScript number parsing (`parseFloat`) over rationals -/

/-- Unsigned decimal: maximal digit run, optional point, maximal digit run;
returns the value and the unconsumed remainder.  Mirrors how JavaScript
`parseFloat` consumes an unsigned decimal prefix and ignores the rest. -/
def parseUNum (l : List Char) : Option (ℚ × List Char) :=
  let d1 := l.takeWhile Char.isDigit
  let r1 := l.dropWhile Char.isDigit
  if r1.head? = some '.' then
    let d2 := r1.tail.takeWhile Char.isDigit
    let r2 := r1.tail.dropWhile Char.isDigit
    if d1.isEmpty && d2.isEmpty then none
    else some ((digitsVal d1 : ℚ) + (digitsVal d2 : ℚ) / (10 : ℚ) ^ d2.length, r2)
  else if d1.isEmpty then none else some ((digitsVal d1 : ℚ), r1)

/-- Signed decimal prefix of a character list, JavaScript-`parseFloat` style. -/
def parseNum (l : List Char) : Option (ℚ × List Char) :=
  if l.head? = some '-' then (parseUNum l.tail).map (fun p => (-p.1, p.2))
  else parseUNum l

/-- JavaScript `parseFloat` on a captured substring: `none` models `NaN`. -/
def parseFloatQ (l : List Char) : Option ℚ := (parseNum l).map (fun p => p.1)

/-! ## JavaScript number printing over rationals -/

/-- Smallest exponent `k` with `d ∣ 10^k`, when one exists below the search
bound (it always does for denominators of the form `2^a * 5^b`). -/
def decExp (d : ℕ) : Option ℕ := (List.range (d + 1)).find? (fun k => 10 ^ k % d = 0)

/-- Characters JavaScript template interpolation produces for a number whose
reduced denominator divides a power of ten: sign, integer digits, and, when
the scale is positive, a point followed by exactly `k` fraction digits with
no trailing zeros (the minimal `k` guarantees that, matching the shortest
round-trip decimal JavaScript prints). -/
def printQChars (q : ℚ) : List Char :=
  match decExp q.den with
  | none => ['0']
  | some k =>
    let m := q.num.natAbs * (10 ^ k / q.den)
    let sgn : List Char := if q.num < 0 then ['-'] else []
    if k = 0 then sgn ++ natDigits m
    else sgn ++ natDigits (m / 10 ^ k) ++ '.' :: padDigits (m % 10 ^ k) k

/-- String form of `printQChars`. -/
def printQ (q : ℚ) : String := ⟨printQChars q⟩

/-- Rationals whose JavaScript `Number` prints in plain decimal notation:
denominator divides a power of ten, magnitude below `10^21`, and either zero
or at least `10^-6` in magnitude (outside that range JavaScript switches to
exponent notation, which the editor's regular expressions would not survive;
the claims are stated inside this range). -/
def IsJsDec (q : ℚ) : Prop :=
  decExp q.den ≠ none ∧ |q| < 10 ^ 21 ∧ (q = 0 ∨ 1 / 1000000 ≤ |q|)

instance (q : ℚ) : Decidable (IsJsDec q) := by unfold IsJsDec; infer_instance

/-- Remainders whose first character cannot extend a decimal number. -/
def NumStop (r : List Char) : Prop :=
  ∀ c, r.head? = some c → c.isDigit = false ∧ c ≠ '.'

/-! ## The editor's transform regular expressions

`Editor.tsx` parses a transform attribute with three regular expressions:

  `translate\(([-\d.]+)[, ]+([-\d.]+)\)` , `rotate\(([-\d.]+)` and
  `scale\(([-\d.]+)\)` .

The two character classes involved, `[-\d.]` and `[, ]`, are disjoint and
each required literal character after a starred class lies outside that
class, so the backtracking search of a JavaScript regular expression agrees
with deterministic maximal munch; the scanners below implement exactly that,
trying each start position from the left as `String.prototype.match` does. -/

/-- Characters of the class `[-\d.]`. -/
def numChar (c : Char) : Bool := c = '-' || c.isDigit || c = '.'

/-- Characters of the class `[, ]`. -/
def sepChar (c : Char) : Bool := c = ',' || c = ' '

/-- Literal head of the translate pattern. -/
def litTranslate : List Char := ['t', 'r', 'a', 'n', 's', 'l', 'a', 't', 'e', '(']

/-- Literal head of the rotate pattern. -/
def litRotate : List Char := ['r', 'o', 't', 'a', 't', 'e', '(']

/-- Literal head of the scale pattern. -/
def litScale : List Char := ['s', 'c', 'a', 'l', 'e', '(']

/-- Match `translate\(([-\d.]+)[, ]+([-\d.]+)\)` at the current position,
returning the two captured groups. -/
def matchTranslateAt (l : List Char) : Option (List Char × List Char) :=
  if litTranslate.isPrefixOf l then
    let r := l.drop litTranslate.length
    let a := r.takeWhile numChar
    let r1 := r.dropWhile numChar
    if a.isEmpty then none else
    if (r1.takeWhile sepChar).isEmpty then none else
    let r2 := r1.dropWhile sepChar
    let b := r2.takeWhile numChar
    let r3 := r2.dropWhile numChar
    if b.isEmpty then none else
    if r3.head? = some ')' then some (a, b) else none
  else none

/-- Match `rotate\(([-\d.]+)` at the current position, returning the single
captured group (the pattern has nothing after the group, so any pivot
arguments that follow are simply not consumed). -/
def matchRotateAt (l : List Char) : Option (List Char) :=
  if litRotate.isPrefixOf l then
    let r := l.drop litRotate.length
    let a := r.takeWhile numChar
    if a.isEmpty then none else some a
  else none

/-- Match `scale\(([-\d.]+)\)` at the current position: the closing
parenthesis must immediately follow the number, so a two-argument
`scale(sx, sy)` never matches here. -/
def matchScaleAt (l : List Char) : Option (List Char) :=
  if litScale.isPrefixOf l then
    let r := l.drop litScale.length
    let a := r.takeWhile numChar
    let r1 := r.dropWhile numChar
    if a.isEmpty then none else
    if r1.head? = some ')' then some a else none
  else none

/-- Leftmost match of the translate pattern, as `String.prototype.match`. -/
def scanTranslate : List Char → Option (List Char × List Char)
  | [] => none
  | c :: t =>
    match matchTranslateAt (c :: t) with
    | some r => some r
    | none => scanTranslate t

/-- Leftmost match of the rotate pattern. -/
def scanRotate : List Char → Option (List Char)
  | [] => none
  | c :: t =>
    match matchRotateAt (c :: t) with
    | some r => some r
    | none => scanRotate t

/-- Leftmost match of the scale pattern. -/
def scanScale : List Char → Option (List Char)
  | [] => none
  | c :: t =>
    match matchScaleAt (c :: t) with
    | some r => some r
    | none => scanScale t

/-- Decomposed transform state of the editor (`TransformState` in
`Editor.tsx`). -/
structure TransformState where
  x : ℚ
  y : ℚ
  scale : ℚ
  rotate : ℚ
deriving DecidableEq, Repr

/-- Transform parsing of the selection effect in `Editor.tsx` (lines 80-95):
each component comes from its regular expression's first capture via
`parseFloat`, and a component whose pattern does not match defaults to its
identity value (x = 0, y = 0, rotate = 0, scale = 1).  The result is `none`
exactly when some matched capture is not a number (`parseFloat` would give
`NaN`, which the source stores unchecked; no claim quantifies over that
corner). -/
def parseTransformChars (cs : List Char) : Option TransformState :=
  let ox := match scanTranslate cs with
    | some p => parseFloatQ p.1
    | none => some 0
  let oy := match scanTranslate cs with
    | some p => parseFloatQ p.2
    | none => some 0
  let orot := match scanRotate cs with
    | some a => parseFloatQ a
    | none => some 0
  let osc := match scanScale cs with
    | some a => parseFloatQ a
    | none => some 1
  match ox, oy, orot, osc with
  | some xv, some yv, some rv, some sv => some ⟨xv, yv, sv, rv⟩
  | _, _, _, _ => none

/-- Transform parsing on strings. -/
def parseTransform (s : String) : Option TransformState := parseTransformChars s.data

/-- The serialized transform attribute written by `applyTransform`
(`Editor.tsx` line 109): fixed order translate, rotate, scale, with the
pivot as the rotation's second and third arguments. -/
def transformString (st : TransformState) (cx cy : ℚ) : String :=
  "translate(" ++ printQ st.x ++ ", " ++ printQ st.y ++ ") rotate(" ++
    printQ st.rotate ++ ", " ++ printQ cx ++ ", " ++ printQ cy ++ ") scale(" ++
    printQ st.scale ++ ")"

/-! ## Color normalization (`rgbToHex`, Editor.tsx lines 27-36) -/

/-- Maximal runs of decimal digits, in order: the list JavaScript
`col.match(/\d+/g)` returns (empty list standing for `null`). -/
def digitRunsAux : List Char → List Char → List (List Char)
  | [], acc => if acc.isEmpty then [] else [acc.reverse]
  | c :: t, acc =>
    if c.isDigit then digitRunsAux t (c :: acc)
    else if acc.isEmpty then digitRunsAux t []
    else acc.reverse :: digitRunsAux t []

/-- Digit runs of a character list. -/
def digitRuns (l : List Char) : List (List Char) := digitRunsAux l []

/-- Color normalization for the color-picker inputs: empty and sentinel
values give white, strings already in hex form pass through
(`col.startsWith('#')` is modelled as a first-character test, equivalent for
the one-character prefix), fewer than three digit runs give black, and
otherwise the first three runs are read as decimal (JavaScript `parseInt`)
and packed via `((1 << 24) + (r << 16) + (g << 8) + b).toString(16).slice(1)`;
the shifts are modelled as exact multiplication, which agrees with
JavaScript's 32-bit semantics for components below `2^15`. -/
def rgbToHex (col : String) : String :=
  if col = "" || col = "none" || col = "transparent" then "#ffffff"
  else if col.data.head? = some '#' then col
  else
    match digitRuns col.data with
    | rs :: gs :: bs :: _ =>
      let r := digitsVal rs
      let g := digitsVal gs
      let b := digitsVal bs
      "#" ++ (⟨(hexDigits (16777216 + r * 65536 + g * 256 + b)).drop 1⟩ : String)
    | _ => "#000000"

/-! ## DOM model

A live SVG element tree: each element records tag, a node identity (standing
for the JavaScript object reference), its attributes, class list, inline
style declarations, text content, and the result of a `getBBox()` query
(`none` models the call throwing for degenerate shapes).  Children are a
mutually inductive forest so that every traversal below is plain structural
recursion. -/

structure ElemData where
  tag : String
  nid : ℕ
  attrs : List (String × String)
  classes : List String
  style : List (String × String)
  bbox : Option ((ℚ × ℚ) × (ℚ × ℚ))
  text : String
deriving DecidableEq, Repr

mutual
inductive XNode where
  | el : ElemData → XForest → XNode
inductive XForest where
  | nil : XForest
  | cons : XNode → XForest → XForest
end

/-- The editor-only highlight marker class. -/
def markerClass : String := "svg-selected"

/-- Identity of a node. -/
def nidOf : XNode → ℕ
  | .el d _ => d.nid

mutual
def markCountN : XNode → ℕ
  | .el d f => (if markerClass ∈ d.classes then 1 else 0) + markCountF f
def markCountF : XForest → ℕ
  | .nil => 0
  | .cons x f => markCountN x + markCountF f
end

mutual
def clearMarksN : XNode → XNode
  | .el d f =>
    .el { d with classes := d.classes.filter (fun c => c != markerClass) }
      (clearMarksF f)
def clearMarksF : XForest → XForest
  | .nil => .nil
  | .cons x f => .cons (clearMarksN x) (clearMarksF f)
end

mutual
/-- `classList.add` of the marker on every node with the given identity. -/
def addMarkN (n : ℕ) : XNode → XNode
  | .el d f =>
    .el (if d.nid = n then
          { d with classes :=
              if markerClass ∈ d.classes then d.classes
              else d.classes ++ [markerClass] }
        else d) (addMarkF n f)
def addMarkF (n : ℕ) : XForest → XForest
  | .nil => .nil
  | .cons x f => .cons (addMarkN n x) (addMarkF n f)
end

mutual
def nidsN : XNode → List ℕ
  | .el d f => d.nid :: nidsF f
def nidsF : XForest → List ℕ
  | .nil => []
  | .cons x f => nidsN x ++ nidsF f
end

mutual
def lookupN (n : ℕ) : XNode → Option ElemData
  | .el d f => if d.nid = n then some d else lookupF n f
def lookupF (n : ℕ) : XForest → Option ElemData
  | .nil => none
  | .cons x f =>
    match lookupN n x with
    | some d => some d
    | none => lookupF n f
end

/-- `setAttribute`: replace the value when the attribute exists, otherwise
append it. -/
def setAttr (attrs : List (String × String)) (name value : String) :
    List (String × String) :=
  if attrs.any (fun p => p.1 == name) then
    attrs.map (fun p => if p.1 = name then (p.1, value) else p)
  else attrs ++ [(name, value)]

/-- `getAttribute`. -/
def getAttr (attrs : List (String × String)) (name : String) : Option String :=
  (attrs.find? (fun p => p.1 == name)).map (fun p => p.2)

mutual
def setAttrNidN (n : ℕ) (name value : String) : XNode → XNode
  | .el d f =>
    .el (if d.nid = n then { d with attrs := setAttr d.attrs name value } else d)
      (setAttrNidF n name value f)
def setAttrNidF (n : ℕ) (name value : String) : XForest → XForest
  | .nil => .nil
  | .cons x f => .cons (setAttrNidN n name value x) (setAttrNidF n name value f)
end

/-- Tag set of `scanLayers` (`Editor.tsx` line 64). -/
def shapeTags : List String :=
  ["path", "rect", "circle", "ellipse", "line", "polyline", "polygon", "text", "g"]

mutual
def preorderN : XNode → List ElemData
  | .el d f => d :: preorderF f
def preorderF : XForest → List ElemData
  | .nil => []
  | .cons x f => preorderN x ++ preorderF f
end

/-- `scanLayers`: all descendants of the svg root whose tag is in the shape
set, in document (preorder) order, as `querySelectorAll` returns them. -/
def scanLayersOf (doc : XNode) : List ElemData :=
  match doc with
  | .el _ f => (preorderF f).filter (fun d => shapeTags.contains d.tag)

mutual
/-- `element.remove()` of every node with the given identity (with unique
identities, exactly the one selected element and its subtree). -/
def removeNidN (n : ℕ) : XNode → XNode
  | .el d f => .el d (removeNidF n f)
def removeNidF (n : ℕ) : XForest → XForest
  | .nil => .nil
  | .cons x f =>
    if nidOf x = n then removeNidF n f
    else .cons (removeNidN n x) (removeNidF n f)
end

/-! ## Serialization (`getSvgContent`, Editor.tsx lines 220-229) -/

/-- Space-joined class tokens. -/
def joinClasses : List String → List Char
  | [] => []
  | [c] => c.data
  | c :: cs => c.data ++ ' ' :: joinClasses cs

/-- Attribute chunks, each preceded by a space and quoted. -/
def attrsChunk : List (String × String) → List Char
  | [] => []
  | (n, v) :: t => ' ' :: n.data ++ '=' :: '"' :: v.data ++ '"' :: attrsChunk t

/-- Rendered class attribute, empty when there are no classes. -/
def classChunk (classes : List String) : List Char :=
  match classes with
  | [] => []
  | _ => ' ' :: 'c' :: 'l' :: 'a' :: 's' :: 's' :: '=' :: '"' ::
      joinClasses classes ++ ['"']

/-- Inline style declarations rendered as a style attribute. -/
def styleEntries : List (String × String) → List Char
  | [] => []
  | (n, v) :: t => n.data ++ ':' :: v.data ++ ';' :: styleEntries t

/-- Rendered style attribute, empty when there are no declarations. -/
def styleChunk (style : List (String × String)) : List Char :=
  match style with
  | [] => []
  | _ => ' ' :: 's' :: 't' :: 'y' :: 'l' :: 'e' :: '=' :: '"' ::
      styleEntries style ++ ['"']

mutual
def serializeN : XNode → List Char
  | .el d f =>
    '<' :: d.tag.data ++ attrsChunk d.attrs ++ classChunk d.classes ++
      styleChunk d.style ++ '>' :: d.text.data ++ serializeF f ++
      '<' :: '/' :: d.tag.data ++ ['>']
def serializeF : XForest → List Char
  | .nil => []
  | .cons x f => serializeN x ++ serializeF f
end

/-- Marker removal on the clone: `clone.querySelectorAll('.svg-selected')`
visits descendants of the cloned root only, never the root itself. -/
def stripMarksClone : XNode → XNode
  | .el d f => .el d (clearMarksF f)

/-- `getSvgContent`: clone the live tree, strip the marker from the clone's
descendants, serialize the clone; the live tree itself is returned untouched
(second component), which is exactly what operating on `cloneNode(true)`
means for the original. -/
def getSvgContent (doc : XNode) : String × XNode :=
  let clone := doc
  (⟨serializeN (stripMarksClone clone)⟩, doc)

/-! ## Selection (`selectElement`, Editor.tsx lines 170-183) -/

/-- Selection: clear the marker from every element of the container, then,
for a non-null target, add the marker to it and record it as selected. -/
def selectElement (doc : XNode) (target : Option ℕ) : XNode × Option ℕ :=
  let cleared := clearMarksN doc
  match target with
  | some n => (addMarkN n cleared, some n)
  | none => (cleared, none)

/-! ## Attribute editing (`updateAttribute`, Editor.tsx lines 271-287) -/

/-- `style.getPropertyValue`: empty string when the property is absent. -/
def getPropertyValue (style : List (String × String)) (name : String) : String :=
  match style.find? (fun p => p.1 == name) with
  | some p => p.2
  | none => ""

/-- `style.setProperty`. -/
def setStyleProperty (style : List (String × String)) (name value : String) :
    List (String × String) :=
  if style.any (fun p => p.1 == name) then
    style.map (fun p => if p.1 = name then (p.1, value) else p)
  else style ++ [(name, value)]

/-- `updateAttribute` on the selected element: a null or `"none"` value
writes the literal `"none"`, otherwise the value itself; in either case the
equally-named inline style property is rewritten too when (and only when) it
currently has a non-empty value, mirroring the truthiness test
`style?.getPropertyValue(attr)`. -/
def updateAttribute (d : ElemData) (attr : String) (value : Option String) :
    ElemData :=
  let x := match value with
    | none => "none"
    | some s => if s = "none" then "none" else s
  let d1 := { d with attrs := setAttr d.attrs attr x }
  if getPropertyValue d1.style attr ≠ "" then
    { d1 with style := setStyleProperty d1.style attr x }
  else d1

/-- Resolved presentation value in this model: a non-empty inline style
declaration wins over the presentation attribute (stylesheet rules and
inheritance are outside the model; the claim concerns inline-style
masking). -/
def computedValue (d : ElemData) (name : String) : String :=
  if getPropertyValue d.style name ≠ "" then getPropertyValue d.style name
  else
    match getAttr d.attrs name with
    | some v => v
    | none => ""

/-! ## Transform application (`applyTransform`, Editor.tsx lines 97-114) -/

/-- `applyTransform`: no-op without a selection; otherwise the pivot is the
selected node's bounding-box center recomputed now, `(0, 0)` when the query
throws, and the serialized fixed-order transform string is written to the
selected node's transform attribute. -/
def applyTransform (doc : XNode) (selected : Option ℕ) (st : TransformState) :
    XNode :=
  match selected with
  | none => doc
  | some n =>
    match lookupN n doc with
    | none => doc
    | some d =>
      let pivot : ℚ × ℚ :=
        match d.bbox with
        | some b => (b.1.1 + b.2.1 / 2, b.1.2 + b.2.2 / 2)
        | none => (0, 0)
      setAttrNidN n "transform" (transformString st pivot.1 pivot.2) doc

/-! ## Deletion (`handleDeleteElement`, Editor.tsx lines 295-301) -/

/-- Editor state relevant to deletion: the live tree, the selection, and the
layer list. -/
structure EditorState where
  doc : XNode
  selected : Option ℕ
  layers : List ElemData

/-- Deletion of the selected element: detach it, clear the selection, and
re-scan the layer list; a no-op when nothing is selected. -/
def handleDeleteElement (st : EditorState) : EditorState :=
  match st.selected with
  | none => st
  | some n =>
    let doc := removeNidN n st.doc
    { doc := doc, selected := none, layers := scanLayersOf doc }

/-! ## Session orchestration (src/unnamed/part_000) -/

inductive GenerationStatus where
  | IDLE
  | LOADING
  | SUCCESS
  | ERROR
deriving DecidableEq, Repr

inductive View where
  | home
  | editor
deriving DecidableEq, Repr

structure GeneratedSvg where
  id : String
  content : String
  prompt : String
  timestamp : ℤ
deriving DecidableEq, Repr

structure ApiError where
  message : String
  details : String
deriving DecidableEq, Repr

structure AppState where
  status : GenerationStatus
  currentSvg : Option GeneratedSvg
  error : Option ApiError
  isRefining : Bool
  view : View
deriving DecidableEq, Repr

/-- JavaScript `err.message || fallback`: the fallback replaces a missing or
empty message. -/
def orFallback (msg : Option String) (fb : String) : String :=
  match msg with
  | none => fb
  | some s => if s = "" then fb else s

/-- `handleGenerate`: loading phase clears the error and the current
artifact, then the settled request either installs a fresh artifact or
records a generation error; the artifact stays absent on failure because the
loading phase already discarded it. -/
def handleGenerate (st : AppState) (prompt : String)
    (result : Except (Option String) String) (newId : String) (now : ℤ) :
    AppState :=
  let st1 := { st with status := .LOADING, error := none, currentSvg := none }
  match result with
  | .ok content =>
    { st1 with currentSvg := some ⟨newId, content, prompt, now⟩,
               status := .SUCCESS, view := .home }
  | .error msg =>
    { st1 with status := .ERROR,
               error := some ⟨"Generation Failed",
                 orFallback msg "An unexpected error occurred while contacting Gemini."⟩ }

/-- `handleRefine`: guarded on an existing artifact; the busy flag is set
for the duration, a success installs the refined artifact, a failure only
records the error — the `currentSvg` of the catch branch is whatever it was
before — and the finally clause clears the busy flag either way. -/
def handleRefine (st : AppState) (instruction : String)
    (result : Except (Option String) String) (newId : String) (now : ℤ) :
    AppState :=
  match st.currentSvg with
  | none => st
  | some _ =>
    let st1 := { st with isRefining := true, error := none }
    let st2 := match result with
      | .ok content =>
        { st1 with currentSvg := some ⟨newId, content, instruction, now⟩,
                   status := .SUCCESS }
      | .error msg =>
        { st1 with error := some ⟨"Refinement Failed",
            orFallback msg "Could not refine the SVG."⟩ }
    { st2 with isRefining := false }

/-! ## Drag conversion (`handleWindowMouseMove`, Editor.tsx lines 118-152) -/

/-- A 2D affine matrix in SVG order: the point map is
`(x, y) ↦ (a x + c y + e, b x + d y + f)`. -/
structure Affine where
  a : ℚ
  b : ℚ
  c : ℚ
  d : ℚ
  e : ℚ
  f : ℚ
deriving DecidableEq, Repr

def matApply (m : Affine) (p : ℚ × ℚ) : ℚ × ℚ :=
  (m.a * p.1 + m.c * p.2 + m.e, m.b * p.1 + m.d * p.2 + m.f)

def matDet (m : Affine) : ℚ := m.a * m.d - m.b * m.c

/-- `DOMMatrix.inverse` by the adjugate formula (the code calls it only on
an invertible screen matrix; on a singular one the browser call throws,
which no claim exercises). -/
def matInverse (m : Affine) : Affine :=
  ⟨m.d / matDet m, -m.b / matDet m, -m.c / matDet m, m.a / matDet m,
   (m.c * m.f - m.d * m.e) / matDet m, (m.b * m.e - m.a * m.f) / matDet m⟩

/-- JavaScript `Math.round`: half-up, that is `⌊q + 1/2⌋`. -/
def roundJs (q : ℚ) : ℤ := ⌊q + 1 / 2⌋

/-- `Math.round(v * 10) / 10`: one decimal place. -/
def round1 (q : ℚ) : ℚ := ((roundJs (q * 10) : ℤ) : ℚ) / 10

/-- Drag-start record (`dragStartRef`). -/
structure DragStart where
  x : ℚ
  y : ℚ
  initialX : ℚ
  initialY : ℚ
deriving DecidableEq, Repr

/-- The window mousemove handler: under its guards it maps the pointer
position and the drag-start position through the inverse of the rendering
surface's screen matrix, takes the delta in that space, adds it to the
transform recorded at drag start and rounds to one decimal; the result is
the state handed to `applyTransform` (`none` when a guard bailed out and no
transform is applied). -/
def handleWindowMouseMove (isDragging : Bool) (selected : Option ℕ)
    (dragStart : Option DragStart) (ctm : Option Affine)
    (tr : TransformState) (clientX clientY : ℚ) : Option TransformState :=
  if ¬ isDragging then none else
  match selected, dragStart, ctm with
  | some _, some ds, some m =>
    let inv := matInverse m
    let loc := matApply inv (clientX, clientY)
    let startLoc := matApply inv (ds.x, ds.y)
    let dx := loc.1 - startLoc.1
    let dy := loc.2 - startLoc.2
    some { tr with x := round1 (ds.initialX + dx), y := round1 (ds.initialY + dy) }
  | _, _, _ => none

/-! ## Effective transform semantics

Modelled from the SVG specification: a transform attribute denotes the left
to right product of the affine maps of its transform functions.  Rotation
matrices involve the cosine and sine of the angle; these are abstracted as
an arbitrary interpretation `trig` pinned down only at angle zero, so that
two transform lists judged equal here are equal in particular under the true
trigonometric interpretation. -/

def matMul (m n : Affine) : Affine :=
  ⟨m.a * n.a + m.c * n.b, m.b * n.a + m.d * n.b,
   m.a * n.c + m.c * n.d, m.b * n.c + m.d * n.d,
   m.a * n.e + m.c * n.f + m.e, m.b * n.e + m.d * n.f + m.f⟩

def matId : Affine := ⟨1, 0, 0, 1, 0, 0⟩

/-- A parsed SVG transform function: `translate(tx)` is `translate tx 0`,
`rotate(a)` is `rotate a 0 0`, `scale(s)` is `scale s s`. -/
inductive TOp where
  | translate (tx ty : ℚ)
  | rotate (a cx cy : ℚ)
  | scale (sx sy : ℚ)
deriving DecidableEq, Repr

def translateMat (tx ty : ℚ) : Affine := ⟨1, 0, 0, 1, tx, ty⟩

def scaleMat (sx sy : ℚ) : Affine := ⟨sx, 0, 0, sy, 0, 0⟩

def rotMat (cs sn : ℚ) : Affine := ⟨cs, sn, -sn, cs, 0, 0⟩

def opSem (trig : ℚ → ℚ × ℚ) : TOp → Affine
  | .translate tx ty => translateMat tx ty
  | .scale sx sy => scaleMat sx sy
  | .rotate a cx cy =>
    matMul (translateMat cx cy)
      (matMul (rotMat (trig a).1 (trig a).2) (translateMat (-cx) (-cy)))

def opsSem (trig : ℚ → ℚ × ℚ) (l : List TOp) : Affine :=
  l.foldl (fun m op => matMul m (opSem trig op)) matId

/-- Whitespace of the transform-list grammar (a space suffices here). -/
def wspChar (c : Char) : Bool := c = ' '

/-- Comma-or-whitespace argument separators. -/
def cwspChar (c : Char) : Bool := c = ' ' || c = ','

/-- Argument list after an opening parenthesis, up to the closing one. -/
def parseArgsAux : ℕ → List Char → Option (List ℚ × List Char)
  | 0, _ => none
  | fu + 1, l =>
    match parseNum (l.dropWhile wspChar) with
    | none => none
    | some (q, r) =>
      let r1 := r.dropWhile cwspChar
      if r1.head? = some ')' then some ([q], r1.tail)
      else
        match parseArgsAux fu r1 with
        | none => none
        | some (qs, rr) => some (q :: qs, rr)

/-- One transform function with its argument arity checked. -/
def parseOneOp (l : List Char) : Option (TOp × List Char) :=
  if litTranslate.isPrefixOf l then
    match parseArgsAux 4 (l.drop litTranslate.length) with
    | some ([tx], r) => some (.translate tx 0, r)
    | some ([tx, ty], r) => some (.translate tx ty, r)
    | _ => none
  else if litRotate.isPrefixOf l then
    match parseArgsAux 4 (l.drop litRotate.length) with
    | some ([a], r) => some (.rotate a 0 0, r)
    | some ([a, cx, cy], r) => some (.rotate a cx cy, r)
    | _ => none
  else if litScale.isPrefixOf l then
    match parseArgsAux 4 (l.drop litScale.length) with
    | some ([s], r) => some (.scale s s, r)
    | some ([sx, sy], r) => some (.scale sx sy, r)
    | _ => none
  else none

/-- Fuelled transform-list parse; the fuel bounds the number of functions,
and each function consumes at least its literal head, so a fuel of one more
than the length always suffices. -/
def parseOpsF : ℕ → List Char → Option (List TOp)
  | 0, _ => none
  | fu + 1, l =>
    let l1 := l.dropWhile wspChar
    if l1.isEmpty then some [] else
    match parseOneOp l1 with
    | none => none
    | some (op, rest) =>
      match parseOpsF fu rest with
      | none => none
      | some ops => some (op :: ops)

/-- Transform functions denoted by a transform attribute string; `none` when
the string is not a list of translate, rotate and scale functions. -/
def svgOps (s : String) : Option (List TOp) := parseOpsF (s.data.length + 1) s.data

/-- Two transform strings have the same effective transform when their
denoted products agree under every interpretation of cosine and sine that is
the identity rotation at angle zero. -/
def SameEff (s₁ s₂ : String) : Prop :=
  ∀ trig : ℚ → ℚ × ℚ, trig 0 = (1, 0) →
    (svgOps s₁).map (opsSem trig) = (svgOps s₂).map (opsSem trig)

/-! ## Canonical transform strings, for the round-trip claims -/

/-- Characters of a `translate(x, y)` component. -/
def tPart (x y : ℚ) : List Char :=
  litTranslate ++ printQChars x ++ ',' :: ' ' :: printQChars y ++ [')']

/-- Characters of a `rotate(a, cx, cy)` component. -/
def rPart (a cx cy : ℚ) : List Char :=
  litRotate ++ printQChars a ++ ',' :: ' ' :: printQChars cx ++
    ',' :: ' ' :: printQChars cy ++ [')']

/-- Characters of a `scale(s)` component. -/
def sPart (v : ℚ) : List Char := litScale ++ printQChars v ++ [')']

/-- Characters of a two-argument `scale(sx, sy)` component. -/
def sPart2 (sx sy : ℚ) : List Char :=
  litScale ++ printQChars sx ++ ',' :: ' ' :: printQChars sy ++ [')']

/-- Space-joined components. -/
def joinSp : List (List Char) → List Char
  | [] => []
  | [p] => p
  | p :: ps => p ++ ' ' :: joinSp ps

/-- A transform string holding an optional subset of translate, rotate and
scale, in that order, space separated. -/
def canonChars (t : Option (ℚ × ℚ)) (r : Option (ℚ × ℚ × ℚ)) (sc : Option ℚ) :
    List Char :=
  joinSp ((t.map (fun p => tPart p.1 p.2)).toList ++
    (r.map (fun p => rPart p.1 p.2.1 p.2.2)).toList ++
    (sc.map sPart).toList)

/-- String form of `canonChars`. -/
def canonStr (t : Option (ℚ × ℚ)) (r : Option (ℚ × ℚ × ℚ)) (sc : Option ℚ) :
    String := ⟨canonChars t r sc⟩

/-- A component list that the transform-list grammar consumes as exactly one
function: nonempty, not led by whitespace, and parsed to `op` ahead of any
continuation. -/
def PartOk (part : List Char) (op : TOp) : Prop :=
  part ≠ [] ∧ (∀ c, part.head? = some c → wspChar c = false) ∧
  ∀ z, parseOneOp (part ++ z) = some (op, z)

/-- The state the editor's parsing effect derives from a canonical transform
string: the captured value where a component is present, its identity
default where it is absent. -/
def canonState (t : Option (ℚ × ℚ)) (r : Option (ℚ × ℚ × ℚ)) (sc : Option ℚ) :
    TransformState :=
  ⟨(t.map (fun p => p.1)).getD 0, (t.map (fun p => p.2)).getD 0,
   sc.getD 1, (r.map (fun p => p.1)).getD 0⟩

/-- Claim C1 as stated: parsing any well-formed transform string into the
four-component state and re-serializing it with unmodified values (about any
pivot the serializer may compute) preserves the effective transform. -/
def TransformRoundTrips : Prop :=
  ∀ (s : String) (ops : List TOp) (st : TransformState) (cx cy : ℚ),
    svgOps s = some ops → parseTransform s = some st →
    SameEff (transformString st cx cy) s

/-- A transform string containing a two-argument `scale(sx, sy)`. -/
def ContainsTwoArgScale (s : String) : Prop :=
  ∃ pre a b post, a ≠ [] ∧ b ≠ [] ∧
    (∀ c ∈ a, numChar c = true) ∧ (∀ c ∈ b, numChar c = true) ∧
    s.data = pre ++ litScale ++ a ++ ',' :: ' ' :: b ++ ')' :: post

/-- Claim C10's scale clause as stated: any transform string containing a
two-argument scale parses with the identity default scale 1. -/
def TwoArgScaleIgnored : Prop :=
  ∀ (s : String) (st : TransformState),
    ContainsTwoArgScale s → parseTransform s = some st → st.scale = 1

/-! ## Substring occurrence, for the serializer claim -/

/-- Occurrence of `p` as a contiguous substring. -/
def occursInB (p : List Char) : List Char → Bool
  | [] => p.isEmpty
  | c :: t => p.isPrefixOf (c :: t) || occursInB p t

/-- The marker class as characters. -/
def markerChars : List Char := markerClass.data

/-- A string free of the marker as a substring. -/
def strClean (s : String) : Bool := !(occursInB markerChars s.data)

/-- Lists whose first character, if any, is not a marker character; substring
occurrences cannot cross into such a list from the left. -/
def SafeHead (l : List Char) : Prop :=
  ∀ c, l.head? = some c → c ∉ markerChars

mutual
/-- Every tag, attribute name and value, style name and value, and text in
the tree is free of the marker substring, and every class other than the
exact marker token is too (the marker classes themselves are the ones the
serializer strips). -/
def cleanN : XNode → Bool
  | .el d f =>
    strClean d.tag &&
    d.attrs.all (fun pr => strClean pr.1 && strClean pr.2) &&
    d.style.all (fun pr => strClean pr.1 && strClean pr.2) &&
    strClean d.text &&
    d.classes.all (fun c => c == markerClass || strClean c) &&
    cleanF f
def cleanF : XForest → Bool
  | .nil => true
  | .cons x f => cleanN x && cleanF f
end

mutual
/-- After stripping, stronger cleanliness: every class is both different
from the marker and free of it as a substring. -/
def strictCleanN : XNode → Bool
  | .el d f =>
    strClean d.tag &&
    d.attrs.all (fun pr => strClean pr.1 && strClean pr.2) &&
    d.style.all (fun pr => strClean pr.1 && strClean pr.2) &&
    strClean d.text &&
    d.classes.all (fun c => !(c == markerClass) && strClean c) &&
    strictCleanF f
def strictCleanF : XForest → Bool
  | .nil => true
  | .cons x f => strictCleanN x && strictCleanF f
end

/-- Classes of the root element. -/
def rootClasses : XNode → List String
  | .el d _ => d.classes

/-- Identities of all strict descendants of the root. -/
def descendantNids : XNode → List ℕ
  | .el _ f => nidsF f

/-! ## Color strings, for the normalization claim -/

/-- String of a natural number as JavaScript prints one. -/
def natStr (n : ℕ) : String := ⟨natDigits n⟩

/-- An RGB functional-form color string. -/
def rgbStr (r g b : ℕ) : String :=
  "rgb(" ++ natStr r ++ ", " ++ natStr g ++ ", " ++ natStr b ++ ")"

/-- Two lowercase hexadecimal digits. -/
def hex2 (n : ℕ) : List Char := padHex n 2

/-- Six-digit lowercase hex color. -/
def hexColor (r g b : ℕ) : String := "#" ++ (⟨hex2 r ++ hex2 g ++ hex2 b⟩ : String)

/-- Claim C9's fallback clause as stated: one single default value covers
both the sentinel inputs and the unparseable ones. -/
def SingleFallback : Prop :=
  ∃ dflt : String, rgbToHex "none" = dflt ∧ rgbToHex "transparent" = dflt ∧
    ∀ col : String, ¬ (col = "" ∨ col = "none" ∨ col = "transparent") →
      ¬ col.data.head? = some '#' → (digitRuns col.data).length < 3 →
      rgbToHex col = dflt

/-! ## Concrete fixtures used by witnesses and counterexamples -/

/-- A rectangle with an inline fill style masking its fill attribute. -/
def rectData : ElemData :=
  ⟨"rect", 1, [("fill", "red")], [], [("fill", "blue")], some ((0, 0), (4, 2)), ""⟩

/-- A highlighted circle whose bounding-box query fails. -/
def circData : ElemData := ⟨"circle", 2, [], [markerClass], [], none, ""⟩

/-- A small svg document holding the two shapes. -/
def sampleDoc : XNode :=
  .el ⟨"svg", 0, [("width", "10")], [], [], none, ""⟩
    (.cons (.el rectData .nil) (.cons (.el circData .nil) .nil))

/-! # Theorems -/

/-! ## Lemmas about digits and number printing -/

theorem digitChar_isDigit {d : ℕ} (h : d < 10) : (digitChar d).isDigit = true := by
  interval_cases d <;> decide

theorem digitChar_val {d : ℕ} (h : d < 10) : (digitChar d).toNat - 48 = d := by
  interval_cases d <;> decide

theorem natDigitsAux_congr (n : ℕ) : ∀ fu₁ fu₂, n < fu₁ → n < fu₂ →
    natDigitsAux fu₁ n = natDigitsAux fu₂ n := by
  induction n using Nat.strong_induction_on with
  | _ n ih =>
    intro fu₁ fu₂ h₁ h₂
    match fu₁, fu₂ with
    | f₁ + 1, f₂ + 1 =>
      by_cases hn : n < 10
      · simp [natDigitsAux, hn]
      · have hdiv : n / 10 < n := Nat.div_lt_self (by omega) (by norm_num)
        simp only [natDigitsAux, hn, if_false]
        rw [ih (n / 10) hdiv f₁ f₂ (by omega) (by omega)]

theorem natDigits_lt {n : ℕ} (h : n < 10) : natDigits n = [digitChar n] := by
  simp [natDigits, natDigitsAux, h]

theorem natDigits_ge {n : ℕ} (h : 10 ≤ n) :
    natDigits n = natDigits (n / 10) ++ [digitChar (n % 10)] := by
  have hdiv : n / 10 < n := Nat.div_lt_self (by omega) (by norm_num)
  have e1 : natDigitsAux (n + 1) n =
      if n < 10 then [digitChar n]
      else natDigitsAux n (n / 10) ++ [digitChar (n % 10)] := rfl
  rw [natDigits, e1, if_neg (Nat.not_lt.mpr h), natDigits]
  rw [natDigitsAux_congr (n / 10) n (n / 10 + 1) hdiv (Nat.lt_succ_self _)]

theorem natDigits_all_digit (n : ℕ) : ∀ c ∈ natDigits n, c.isDigit = true := by
  induction n using Nat.strong_induction_on with
  | _ n ih =>
    by_cases hn : n < 10
    · rw [natDigits_lt hn]; intro c hc
      simp at hc; subst hc; exact digitChar_isDigit hn
    · rw [natDigits_ge (by omega)]
      intro c hc
      rcases List.mem_append.1 hc with h | h
      · exact ih (n / 10) (Nat.div_lt_self (by omega) (by norm_num)) c h
      · simp at h; subst h; exact digitChar_isDigit (Nat.mod_lt _ (by norm_num))

theorem natDigits_ne_nil (n : ℕ) : natDigits n ≠ [] := by
  by_cases hn : n < 10
  · rw [natDigits_lt hn]; simp
  · rw [natDigits_ge (by omega)]; simp

theorem digitsValGo (a : ℕ) (l : List Char) :
    l.foldl (fun a c => a * 10 + (c.toNat - 48)) a =
      a * 10 ^ l.length + digitsVal l := by
  induction l generalizing a with
  | nil => simp [digitsVal]
  | cons c t ih =>
    simp only [List.foldl_cons, digitsVal, List.length_cons]
    rw [ih, ih (0 * 10 + (c.toNat - 48))]
    ring

theorem digitsVal_append (l₁ l₂ : List Char) :
    digitsVal (l₁ ++ l₂) = digitsVal l₁ * 10 ^ l₂.length + digitsVal l₂ := by
  simp only [digitsVal, List.foldl_append]
  rw [digitsValGo]
  rfl

theorem digitsVal_natDigits (n : ℕ) : digitsVal (natDigits n) = n := by
  induction n using Nat.strong_induction_on with
  | _ n ih =>
    by_cases hn : n < 10
    · rw [natDigits_lt hn]
      simp [digitsVal, digitChar_val hn]
    · rw [natDigits_ge (by omega), digitsVal_append,
        ih (n / 10) (Nat.div_lt_self (by omega) (by norm_num))]
      simp [digitsVal, digitChar_val (Nat.mod_lt n (show 0 < 10 by norm_num))]
      omega

theorem padDigits_length (n k : ℕ) : (padDigits n k).length = k := by
  induction k generalizing n with
  | zero => rfl
  | succ k ih => simp [padDigits, ih]

theorem padDigits_all_digit (n k : ℕ) : ∀ c ∈ padDigits n k, c.isDigit = true := by
  induction k generalizing n with
  | zero => intro c hc; simp [padDigits] at hc
  | succ k ih =>
    intro c hc
    simp only [padDigits] at hc
    rcases List.mem_append.1 hc with h | h
    · exact ih (n / 10) c h
    · simp at h; subst h; exact digitChar_isDigit (Nat.mod_lt _ (by norm_num))

theorem digitsVal_padDigits (n k : ℕ) : digitsVal (padDigits n k) = n % 10 ^ k := by
  induction k generalizing n with
  | zero => simp [padDigits, digitsVal, Nat.mod_one]
  | succ k ih =>
    simp only [padDigits, digitsVal_append, ih]
    simp [digitsVal, digitChar_val (Nat.mod_lt n (show 0 < 10 by norm_num)),
      List.length_cons]
    rw [pow_succ, mul_comm (10 ^ k) 10, Nat.mod_mul]
    ring

theorem takeWhile_append_all {p : Char → Bool} {l₁ : List Char} (l₂ : List Char)
    (h : ∀ c ∈ l₁, p c = true) :
    (l₁ ++ l₂).takeWhile p = l₁ ++ l₂.takeWhile p := by
  induction l₁ with
  | nil => simp
  | cons c t ih =>
    simp only [List.cons_append, List.takeWhile_cons, h c (by simp), if_true]
    rw [ih (fun x hx => h x (by simp [hx]))]

theorem dropWhile_append_all {p : Char → Bool} {l₁ : List Char} (l₂ : List Char)
    (h : ∀ c ∈ l₁, p c = true) :
    (l₁ ++ l₂).dropWhile p = l₂.dropWhile p := by
  induction l₁ with
  | nil => simp
  | cons c t ih =>
    simp only [List.cons_append, List.dropWhile_cons, h c (by simp)]
    exact ih (fun x hx => h x (by simp [hx]))

theorem takeWhile_stop {p : Char → Bool} {l : List Char}
    (h : ∀ c, l.head? = some c → p c = false) : l.takeWhile p = [] := by
  cases l with
  | nil => rfl
  | cons c t => simp [List.takeWhile_cons, h c rfl]

theorem dropWhile_stop {p : Char → Bool} {l : List Char}
    (h : ∀ c, l.head? = some c → p c = false) : l.dropWhile p = l := by
  cases l with
  | nil => rfl
  | cons c t => simp [List.dropWhile_cons, h c rfl]

theorem parseUNum_int (m : ℕ) (r : List Char) (hr : NumStop r) :
    parseUNum (natDigits m ++ r) = some ((m : ℚ), r) := by
  have htw : (natDigits m ++ r).takeWhile Char.isDigit = natDigits m := by
    rw [takeWhile_append_all r (natDigits_all_digit m),
      takeWhile_stop (fun c hc => (hr c hc).1), List.append_nil]
  have hdw : (natDigits m ++ r).dropWhile Char.isDigit = r := by
    rw [dropWhile_append_all r (natDigits_all_digit m),
      dropWhile_stop (fun c hc => (hr c hc).1)]
  have hnp : ¬ r.head? = some '.' := by
    intro hc; exact (hr '.' hc).2 rfl
  simp only [parseUNum, htw, hdw, if_neg hnp]
  rw [if_neg (by simp [List.isEmpty_iff, natDigits_ne_nil m])]
  rw [digitsVal_natDigits]

theorem parseUNum_frac (a b k : ℕ) (hb : b < 10 ^ k) (r : List Char)
    (hr : NumStop r) :
    parseUNum (natDigits a ++ '.' :: (padDigits b k ++ r)) =
      some ((a : ℚ) + (b : ℚ) / (10 : ℚ) ^ k, r) := by
  have hpd : ¬ ('.' : Char).isDigit = true := by decide
  have htw : (natDigits a ++ '.' :: (padDigits b k ++ r)).takeWhile Char.isDigit
      = natDigits a := by
    rw [takeWhile_append_all _ (natDigits_all_digit a)]
    simp [List.takeWhile_cons, hpd]
  have hdw : (natDigits a ++ '.' :: (padDigits b k ++ r)).dropWhile Char.isDigit
      = '.' :: (padDigits b k ++ r) := by
    rw [dropWhile_append_all _ (natDigits_all_digit a)]
    simp [List.dropWhile_cons, hpd]
  have htw2 : (padDigits b k ++ r).takeWhile Char.isDigit = padDigits b k := by
    rw [takeWhile_append_all r (padDigits_all_digit b k),
      takeWhile_stop (fun c hc => (hr c hc).1), List.append_nil]
  have hdw2 : (padDigits b k ++ r).dropWhile Char.isDigit = r := by
    rw [dropWhile_append_all r (padDigits_all_digit b k),
      dropWhile_stop (fun c hc => (hr c hc).1)]
  simp only [parseUNum, htw, hdw, List.head?_cons, List.tail_cons, htw2, hdw2]
  rw [if_pos trivial, if_neg (by simp [List.isEmpty_iff, natDigits_ne_nil a])]
  rw [digitsVal_natDigits, digitsVal_padDigits, padDigits_length,
    Nat.mod_eq_of_lt hb]

theorem den_dvd_of_decExp {d k : ℕ} (h : decExp d = some k) : d ∣ 10 ^ k := by
  have := List.find?_some h
  exact Nat.dvd_of_mod_eq_zero (by exact_mod_cast of_decide_eq_true this)

theorem parseNum_neg_cons (l : List Char) :
    parseNum ('-' :: l) = (parseUNum l).map (fun p => (-p.1, p.2)) := by
  simp [parseNum]

theorem head_of_digits_led {m : ℕ} {r : List Char} :
    ¬ (natDigits m ++ r).head? = some '-' := by
  intro hc
  cases hnd : natDigits m with
  | nil => exact natDigits_ne_nil m hnd
  | cons c t =>
    rw [hnd] at hc
    simp at hc
    have := natDigits_all_digit m c (by rw [hnd]; simp)
    rw [hc] at this
    exact absurd this (by decide)

theorem parseNum_not_dash {l : List Char} (h : ¬ l.head? = some '-') :
    parseNum l = parseUNum l := by
  simp [parseNum, h]

/-- Round trip: the characters JavaScript prints for a decimal rational parse
back, by `parseFloat`, to exactly that rational, whatever trailing characters
follow, provided the first of them cannot extend the number. -/
theorem parseNum_printQChars (q : ℚ) (hq : decExp q.den ≠ none) (r : List Char)
    (hr : NumStop r) : parseNum (printQChars q ++ r) = some (q, r) := by
  obtain ⟨k, hk⟩ := Option.ne_none_iff_exists'.mp hq
  have hdvd : q.den ∣ 10 ^ k := den_dvd_of_decExp hk
  have hden0 : (q.den : ℚ) ≠ 0 := by exact_mod_cast q.den_nz
  obtain ⟨m, hm⟩ : ∃ m, q.num.natAbs * (10 ^ k / q.den) = m := ⟨_, rfl⟩
  have hmq : ((m : ℕ) : ℚ) = |q| * 10 ^ k := by
    have h1 : ((10 ^ k / q.den : ℕ) : ℚ) = (10 ^ k : ℚ) / (q.den : ℚ) := by
      rw [Nat.cast_div hdvd hden0]
      push_cast
      ring
    have h2 : |q| = |(q.num : ℚ)| / (q.den : ℚ) := by
      conv_lhs => rw [← Rat.num_div_den q]
      rw [abs_div, abs_of_nonneg (show (0:ℚ) ≤ (q.den : ℚ) by positivity)]
    rw [← hm]
    push_cast [h1, Int.cast_natAbs]
    rw [h2]
    field_simp
  have hsgn_neg : q.num < 0 → -|q| = q := fun hneg => by
    rw [abs_of_neg (Rat.num_neg.mp hneg), neg_neg]
  have hsgn_pos : ¬ q.num < 0 → |q| = q := fun hpos =>
    abs_of_nonneg (Rat.num_nonneg.mp (by omega))
  by_cases hk0 : k = 0
  · subst hk0
    have hval : ((m : ℕ) : ℚ) = |q| := by simpa using hmq
    have hchars : printQChars q
        = (if q.num < 0 then ['-'] else []) ++ natDigits m := by
      simp only [printQChars, hk, hm]
      norm_num
    rw [hchars]
    by_cases hneg : q.num < 0
    · rw [if_pos hneg,
        show (['-'] ++ natDigits m) ++ r = '-' :: (natDigits m ++ r) by simp,
        parseNum_neg_cons, parseUNum_int m r hr]
      simp only [Option.map_some']
      rw [hval, hsgn_neg hneg]
    · rw [if_neg hneg, List.nil_append,
        parseNum_not_dash head_of_digits_led, parseUNum_int m r hr,
        hval, hsgn_pos hneg]
  · have hb : m % 10 ^ k < 10 ^ k := Nat.mod_lt _ (by positivity)
    have hfrac := parseUNum_frac (m / 10 ^ k) (m % 10 ^ k) k hb r hr
    have hval : ((m / 10 ^ k : ℕ) : ℚ) + ((m % 10 ^ k : ℕ) : ℚ) / 10 ^ k
        = |q| := by
      have heq : (|q| : ℚ) = ((m : ℕ) : ℚ) / 10 ^ k := by
        rw [hmq]; field_simp
      rw [heq]
      have hdm : m / 10 ^ k * 10 ^ k + m % 10 ^ k = m := by
        rw [mul_comm]; exact Nat.div_add_mod m (10 ^ k)
      have h10 : ((10 : ℚ) ^ k) ≠ 0 := by positivity
      field_simp
      exact_mod_cast hdm
    have hchars : printQChars q = (if q.num < 0 then ['-'] else [])
        ++ (natDigits (m / 10 ^ k) ++ '.' :: padDigits (m % 10 ^ k) k) := by
      simp only [printQChars, hk, hm]
      rw [if_neg hk0]
      by_cases hneg : q.num < 0 <;> simp [hneg]
    rw [hchars]
    by_cases hneg : q.num < 0
    · rw [if_pos hneg,
        show (['-'] ++ (natDigits (m / 10 ^ k) ++ '.' :: padDigits (m % 10 ^ k) k)) ++ r
          = '-' :: (natDigits (m / 10 ^ k) ++ '.' :: (padDigits (m % 10 ^ k) k ++ r)) by simp,
        parseNum_neg_cons, hfrac]
      simp only [Option.map_some']
      rw [hval, hsgn_neg hneg]
    · rw [if_neg hneg, List.nil_append,
        show (natDigits (m / 10 ^ k) ++ '.' :: padDigits (m % 10 ^ k) k) ++ r
          = natDigits (m / 10 ^ k) ++ '.' :: (padDigits (m % 10 ^ k) k ++ r) by simp,
        parseNum_not_dash head_of_digits_led, hfrac, hval, hsgn_pos hneg]

/-- Round trip at the `parseFloat` level, with nothing following the number. -/
theorem parseFloatQ_printQChars (q : ℚ) (hq : decExp q.den ≠ none) :
    parseFloatQ (printQChars q) = some q := by
  have := parseNum_printQChars q hq [] (fun c hc => by simp at hc)
  rw [List.append_nil] at this
  rw [parseFloatQ, this]
  rfl

/-! ## Tree lemmas -/

mutual
theorem markCount_clearN : ∀ x : XNode, markCountN (clearMarksN x) = 0
  | .el d f => by
    have hf := markCount_clearF f
    have hnot : markerClass ∉ d.classes.filter (fun c => c != markerClass) := by
      intro hmem
      have h2 := (List.mem_filter.mp hmem).2
      simp at h2
    simp [clearMarksN, markCountN, hf, hnot]
theorem markCount_clearF : ∀ f : XForest, markCountF (clearMarksF f) = 0
  | .nil => rfl
  | .cons x f => by
    have hx := markCount_clearN x
    have hf := markCount_clearF f
    simp [clearMarksF, markCountF, hx, hf]
end

mutual
theorem nids_clearN : ∀ x : XNode, nidsN (clearMarksN x) = nidsN x
  | .el d f => by simp [clearMarksN, nidsN, nids_clearF f]
theorem nids_clearF : ∀ f : XForest, nidsF (clearMarksF f) = nidsF f
  | .nil => rfl
  | .cons x f => by simp [clearMarksF, nidsF, nids_clearN x, nids_clearF f]
end

mutual
theorem markCount_addN (n : ℕ) : ∀ x : XNode,
    markCountN (addMarkN n x) ≤ markCountN x + (nidsN x).count n
  | .el d f => by
    have hf := markCount_addF n f
    by_cases h : d.nid = n
    · have hroot : (if markerClass ∈
          (if markerClass ∈ d.classes then d.classes
           else d.classes ++ [markerClass]) then 1 else 0) = 1 := by
        by_cases hc : markerClass ∈ d.classes <;> simp [hc]
      simp only [addMarkN, markCountN, nidsN, if_pos h, List.count_cons, h,
        hroot, beq_self_eq_true, if_true]
      omega
    · simp only [addMarkN, markCountN, nidsN, if_neg h, List.count_cons]
      have hbeq : (d.nid == n) = false := by simp [h]
      simp [hbeq]
      omega
theorem markCount_addF (n : ℕ) : ∀ f : XForest,
    markCountF (addMarkF n f) ≤ markCountF f + (nidsF f).count n
  | .nil => by simp [addMarkF, markCountF]
  | .cons x f => by
    have hx := markCount_addN n x
    have hf := markCount_addF n f
    simp only [addMarkF, markCountF, nidsF, List.count_append]
    omega
end

mutual
theorem lookup_setAttr_selfN (n : ℕ) (name v : String) : ∀ x : XNode,
    lookupN n (setAttrNidN n name v x) =
      (lookupN n x).map (fun d => { d with attrs := setAttr d.attrs name v })
  | .el d f => by
    have hf := lookup_setAttr_selfF n name v f
    by_cases h : d.nid = n
    · simp [setAttrNidN, lookupN, h]
    · simp [setAttrNidN, lookupN, h, hf]
theorem lookup_setAttr_selfF (n : ℕ) (name v : String) : ∀ f : XForest,
    lookupF n (setAttrNidF n name v f) =
      (lookupF n f).map (fun d => { d with attrs := setAttr d.attrs name v })
  | .nil => rfl
  | .cons x f => by
    have hx := lookup_setAttr_selfN n name v x
    have hf := lookup_setAttr_selfF n name v f
    simp only [setAttrNidF, lookupF, hx, hf]
    cases lookupN n x <;> rfl
end

mutual
theorem lookup_setAttr_otherN (m n : ℕ) (hmn : m ≠ n) (name v : String) :
    ∀ x : XNode, lookupN m (setAttrNidN n name v x) = lookupN m x
  | .el d f => by
    have hf := lookup_setAttr_otherF m n hmn name v f
    have hnm : ¬ n = m := fun hh => hmn hh.symm
    by_cases h : d.nid = n
    · simp [setAttrNidN, lookupN, h, hnm, hf]
    · by_cases hm : d.nid = m <;> simp [setAttrNidN, lookupN, h, hm, hf, hmn, hnm]
theorem lookup_setAttr_otherF (m n : ℕ) (hmn : m ≠ n) (name v : String) :
    ∀ f : XForest, lookupF m (setAttrNidF n name v f) = lookupF m f
  | .nil => rfl
  | .cons x f => by
    have hx := lookup_setAttr_otherN m n hmn name v x
    have hf := lookup_setAttr_otherF m n hmn name v f
    simp only [setAttrNidF, lookupF, hx, hf]
end

mutual
theorem remove_memN (n : ℕ) : ∀ x : XNode,
    n ∈ nidsN (removeNidN n x) → nidOf x = n
  | .el d f => by
    intro hmem
    have hf := remove_memF n f
    simp only [removeNidN, nidsN, List.mem_cons, nidOf] at hmem ⊢
    rcases hmem with h | h
    · omega
    · exact absurd h hf
theorem remove_memF (n : ℕ) : ∀ f : XForest, n ∉ nidsF (removeNidF n f)
  | .nil => by simp [removeNidF, nidsF]
  | .cons x f => by
    have hf := remove_memF n f
    by_cases h : nidOf x = n
    · simp only [removeNidF, if_pos h]
      exact hf
    · have hx := remove_memN n x
      simp only [removeNidF, if_neg h, nidsF, List.mem_append]
      intro hc
      rcases hc with hc | hc
      · exact h (hx hc)
      · exact hf hc
end

mutual
theorem preorder_nidN : ∀ x : XNode, ∀ d ∈ preorderN x, d.nid ∈ nidsN x
  | .el dd f => by
    intro d hd
    simp only [preorderN, List.mem_cons] at hd
    simp only [nidsN, List.mem_cons]
    rcases hd with h | h
    · left; rw [h]
    · right; exact preorder_nidF f d h
theorem preorder_nidF : ∀ f : XForest, ∀ d ∈ preorderF f, d.nid ∈ nidsF f
  | .nil => by intro d hd; simp [preorderF] at hd
  | .cons x f => by
    intro d hd
    simp only [preorderF, List.mem_append] at hd
    simp only [nidsF, List.mem_append]
    rcases hd with h | h
    · left; exact preorder_nidN x d h
    · right; exact preorder_nidF f d h
end

/-! ## Association-list lemmas -/

theorem find?_setAttr (l : List (String × String)) (name value : String) :
    (setAttr l name value).find? (fun p => p.1 == name) = some (name, value) := by
  rw [setAttr]
  by_cases h : l.any (fun p => p.1 == name)
  · rw [if_pos h]
    induction l with
    | nil => simp at h
    | cons a t ih =>
      by_cases ha : a.1 = name
      · simp [List.find?, ha]
      · have h' : t.any (fun p => p.1 == name) = true := by
          simp only [List.any_cons, Bool.or_eq_true, beq_iff_eq] at h
          rcases h with h | h
          · exact absurd h ha
          · simpa using h
        simp only [List.map_cons, if_neg ha]
        rw [List.find?_cons_of_neg _ (by simp [ha])]
        exact ih h'
  · rw [if_neg h]
    have hnone : l.find? (fun p => p.1 == name) = none := by
      rw [List.find?_eq_none]
      intro p hp
      simp only [List.any_eq_true] at h
      intro hb
      exact h ⟨p, hp, hb⟩
    rw [List.find?_append, hnone]
    simp [List.find?]

theorem getAttr_setAttr (l : List (String × String)) (name value : String) :
    getAttr (setAttr l name value) name = some value := by
  rw [getAttr, find?_setAttr]
  rfl

theorem setStyleProperty_eq_setAttr : setStyleProperty = setAttr := rfl

theorem getPropertyValue_setStyleProperty (l : List (String × String))
    (name value : String) :
    getPropertyValue (setStyleProperty l name value) name = value := by
  rw [setStyleProperty_eq_setAttr, getPropertyValue, find?_setAttr]

/-! ## Claim C2 -/

/-- C2: `applyTransform` is a no-op without a selection; with one, it writes
the fixed-order serialized transform only to the selected node, with the
pivot recomputed now as the bounding-box center, or `(0, 0)` when the
bounding-box query fails, and every other node's data is untouched. -/
theorem applyTransform_contract :
    (∀ (doc : XNode) (st : TransformState), applyTransform doc none st = doc) ∧
    (∀ (doc : XNode) (n : ℕ) (st : TransformState) (d : ElemData),
      lookupN n doc = some d →
      ((∀ m, m ≠ n → lookupN m (applyTransform doc (some n) st) = lookupN m doc) ∧
       (∀ b, d.bbox = some b →
         lookupN n (applyTransform doc (some n) st) =
           some { d with attrs := (setAttr d.attrs "transform"
             (transformString st (b.1.1 + b.2.1 / 2) (b.1.2 + b.2.2 / 2))) }) ∧
       (d.bbox = none →
         lookupN n (applyTransform doc (some n) st) =
           some { d with attrs := (setAttr d.attrs "transform"
             (transformString st 0 0)) }))) := by
  constructor
  · intro doc st; rfl
  · intro doc n st d hd
    have happ : ∀ cx cy,
        lookupN n (setAttrNidN n "transform" (transformString st cx cy) doc) =
          some { d with attrs := (setAttr d.attrs "transform"
            (transformString st cx cy)) } := by
      intro cx cy
      rw [lookup_setAttr_selfN n _ _ doc, hd]
      rfl
    refine ⟨?_, ?_, ?_⟩
    · intro m hm
      cases hb : d.bbox with
      | some b =>
        simp only [applyTransform, hd, hb]
        exact lookup_setAttr_otherN m n hm _ _ doc
      | none =>
        simp only [applyTransform, hd, hb]
        exact lookup_setAttr_otherN m n hm _ _ doc
    · intro b hb
      have heq : applyTransform doc (some n) st = setAttrNidN n "transform"
          (transformString st (b.1.1 + b.2.1 / 2) (b.1.2 + b.2.2 / 2)) doc := by
        simp only [applyTransform, hd, hb]
      rw [heq]
      exact happ _ _
    · intro hb
      have heq : applyTransform doc (some n) st = setAttrNidN n "transform"
          (transformString st 0 0) doc := by
        simp only [applyTransform, hd, hb]
      rw [heq]
      exact happ 0 0

/-- Witness for C2 at a concrete document: selecting the rectangle writes
its transform with the bounding-box-center pivot and leaves the circle's
entry unchanged. -/
theorem applyTransform_contract_witness :
    lookupN 1 sampleDoc = some rectData ∧
    lookupN 2 (applyTransform sampleDoc (some 1) ⟨3, 4, 1, 0⟩) = lookupN 2 sampleDoc ∧
    lookupN 1 (applyTransform sampleDoc (some 1) ⟨3, 4, 1, 0⟩) =
      some { rectData with attrs := (setAttr rectData.attrs "transform"
        (transformString ⟨3, 4, 1, 0⟩ (0 + 4 / 2) (0 + 2 / 2))) } :=
  ⟨by with_unfolding_all decide,
   (applyTransform_contract.2 sampleDoc 1 ⟨3, 4, 1, 0⟩ rectData
     (by with_unfolding_all decide)).1 2 (by decide),
   (applyTransform_contract.2 sampleDoc 1 ⟨3, 4, 1, 0⟩ rectData
     (by with_unfolding_all decide)).2.1 ((0, 0), (4, 2))
     (by with_unfolding_all decide)⟩

/-! ## Claim C4 -/

/-- C4: selection first clears every marker (the intermediate state has
none), so at no point do two markers coexist; selecting none applies no
marker, and selecting a node leaves at most one marked element when node
identities are distinct. -/
theorem selection_single_marker (doc : XNode) (n : ℕ)
    (hnd : (nidsN doc).Nodup) :
    markCountN (clearMarksN doc) = 0 ∧
    selectElement doc none = (clearMarksN doc, none) ∧
    markCountN (selectElement doc none).1 = 0 ∧
    markCountN (selectElement doc (some n)).1 ≤ 1 ∧
    (selectElement doc (some n)).2 = some n := by
  refine ⟨markCount_clearN doc, rfl, markCount_clearN doc, ?_, rfl⟩
  have h1 := markCount_addN n (clearMarksN doc)
  rw [markCount_clearN doc, nids_clearN doc] at h1
  have h2 : (nidsN doc).count n ≤ 1 := List.nodup_iff_count_le_one.mp hnd n
  have h3 : (selectElement doc (some n)).1 = addMarkN n (clearMarksN doc) := rfl
  rw [h3]
  omega

/-- Witness for C4 at a concrete document. -/
theorem selection_single_marker_witness :
    (nidsN sampleDoc).Nodup ∧
    markCountN (selectElement sampleDoc (some 1)).1 ≤ 1 :=
  ⟨by decide, (selection_single_marker sampleDoc 1 (by decide)).2.2.2.1⟩

/-! ## Claim C5 -/

/-- C5: writing fill none through `updateAttribute` sets the attribute to
the literal string none and the resolved fill — inline style included — is
none, whatever the prior inline-style value was. -/
theorem setFillNone_resolves (d : ElemData) (v : Option String)
    (hv : v = none ∨ v = some "none") :
    getAttr (updateAttribute d "fill" v).attrs "fill" = some "none" ∧
    computedValue (updateAttribute d "fill" v) "fill" = "none" := by
  have key : ∀ w : Option String,
      (match w with
        | none => "none"
        | some s => if s = "none" then "none" else s) = "none" →
      getAttr (updateAttribute d "fill" w).attrs "fill" = some "none" ∧
      computedValue (updateAttribute d "fill" w) "fill" = "none" := by
    intro w hw
    simp only [updateAttribute, hw]
    by_cases hs : getPropertyValue d.style "fill" ≠ ""
    · simp only [if_pos hs]
      refine ⟨getAttr_setAttr d.attrs "fill" "none", ?_⟩
      simp only [computedValue, getPropertyValue_setStyleProperty]
      simp
    · simp only [if_neg hs]
      refine ⟨getAttr_setAttr d.attrs "fill" "none", ?_⟩
      simp only [computedValue]
      rw [if_neg hs, getAttr_setAttr]
  rcases hv with h | h <;> subst h
  · exact key none rfl
  · exact key (some "none") (by simp)

/-- Witness for C5: the rectangle's inline `fill: blue` no longer masks the
written none. -/
theorem setFillNone_resolves_witness :
    ((none : Option String) = none ∨ (none : Option String) = some "none") ∧
    computedValue (updateAttribute rectData "fill" none) "fill" = "none" :=
  ⟨Or.inl rfl, (setFillNone_resolves rectData none (Or.inl rfl)).2⟩

/-! ## Claim C7 -/

/-- C7: a failed generation leaves no current artifact with the error
visible (the loading phase already cleared the artifact and the catch
records the error); a failed refinement keeps the last-good artifact
unchanged, records the error beside it, and clears the busy flag. -/
theorem requestFailure_contract :
    (∀ (st : AppState) (prompt : String) (msg : Option String)
      (newId : String) (now : ℤ),
      (handleGenerate st prompt (.error msg) newId now).currentSvg = none ∧
      (handleGenerate st prompt (.error msg) newId now).status = .ERROR ∧
      (handleGenerate st prompt (.error msg) newId now).error =
        some ⟨"Generation Failed",
          orFallback msg "An unexpected error occurred while contacting Gemini."⟩) ∧
    (∀ (st : AppState) (instr : String) (msg : Option String)
      (newId : String) (now : ℤ) (a : GeneratedSvg),
      st.currentSvg = some a →
      (handleRefine st instr (.error msg) newId now).currentSvg = some a ∧
      (handleRefine st instr (.error msg) newId now).error =
        some ⟨"Refinement Failed", orFallback msg "Could not refine the SVG."⟩ ∧
      (handleRefine st instr (.error msg) newId now).isRefining = false ∧
      (handleRefine st instr (.error msg) newId now).status = st.status ∧
      (handleRefine st instr (.error msg) newId now).view = st.view) := by
  constructor
  · intro st prompt msg newId now
    exact ⟨rfl, rfl, rfl⟩
  · intro st instr msg newId now a ha
    simp [handleRefine, ha]

/-- Witness for C7 at a concrete refinement failure. -/
theorem requestFailure_contract_witness :
    (AppState.mk .SUCCESS (some ⟨"i", "<svg></svg>", "p", 5⟩) none false .editor).currentSvg
      = some ⟨"i", "<svg></svg>", "p", 5⟩ ∧
    (handleRefine (AppState.mk .SUCCESS (some ⟨"i", "<svg></svg>", "p", 5⟩) none false .editor)
      "slimmer" (.error (some "boom")) "j" 6).currentSvg = some ⟨"i", "<svg></svg>", "p", 5⟩ :=
  ⟨rfl,
   (requestFailure_contract.2
     (AppState.mk .SUCCESS (some ⟨"i", "<svg></svg>", "p", 5⟩) none false .editor)
     "slimmer" (some "boom") "j" 6 ⟨"i", "<svg></svg>", "p", 5⟩ rfl).1⟩

/-! ## Claim C8 -/

/-- C8: deleting the selected node detaches it (its identity is gone from
the descendants), clears the selection, and the re-scanned layer sequence
does not contain it. -/
theorem deleteElement_contract (st : EditorState) (n : ℕ)
    (hsel : st.selected = some n) :
    (handleDeleteElement st).selected = none ∧
    (handleDeleteElement st).doc = removeNidN n st.doc ∧
    (handleDeleteElement st).layers = scanLayersOf (handleDeleteElement st).doc ∧
    n ∉ descendantNids (handleDeleteElement st).doc ∧
    n ∉ (handleDeleteElement st).layers.map (fun d => d.nid) := by
  have hd : handleDeleteElement st =
      { doc := removeNidN n st.doc, selected := none,
        layers := scanLayersOf (removeNidN n st.doc) } := by
    simp [handleDeleteElement, hsel]
  refine ⟨by rw [hd], by rw [hd], by rw [hd], ?_, ?_⟩
  · rw [hd]
    cases st.doc with
    | el d0 f0 =>
      simp only [removeNidN, descendantNids]
      exact remove_memF n f0
  · rw [hd]
    cases st.doc with
    | el d0 f0 =>
      simp only [removeNidN, scanLayersOf]
      intro hmem
      obtain ⟨dd, hdd, hnid⟩ := List.mem_map.mp hmem
      have hin : dd ∈ preorderF (removeNidF n f0) := (List.mem_filter.mp hdd).1
      have hnn := preorder_nidF (removeNidF n f0) dd hin
      rw [hnid] at hnn
      exact remove_memF n f0 hnn

/-- Witness for C8: deleting the selected circle. -/
theorem deleteElement_contract_witness :
    (EditorState.mk sampleDoc (some 2) []).selected = some 2 ∧
    (handleDeleteElement (EditorState.mk sampleDoc (some 2) [])).selected = none ∧
    2 ∉ (handleDeleteElement (EditorState.mk sampleDoc (some 2) [])).layers.map
      (fun d => d.nid) :=
  ⟨rfl,
   (deleteElement_contract (EditorState.mk sampleDoc (some 2) []) 2 rfl).1,
   (deleteElement_contract (EditorState.mk sampleDoc (some 2) []) 2 rfl).2.2.2.2⟩

/-! ## Substring-occurrence lemmas -/

theorem isPrefixOf_ex {p l : List Char} :
    p.isPrefixOf l = true ↔ ∃ t, l = p ++ t := by
  induction p generalizing l with
  | nil => simp [List.isPrefixOf]
  | cons c p ih =>
    cases l with
    | nil => simp [List.isPrefixOf]
    | cons a t =>
      simp only [List.isPrefixOf, Bool.and_eq_true, beq_iff_eq, ih,
        List.cons_append]
      constructor
      · rintro ⟨h1, t', ht⟩
        exact ⟨t', by rw [h1, ht]⟩
      · rintro ⟨t', ht⟩
        injection ht with h1 h2
        exact ⟨h1.symm, t', h2⟩

theorem occursInB_iff {p : List Char} (hp : p ≠ []) {l : List Char} :
    occursInB p l = true ↔ ∃ x y, l = x ++ p ++ y := by
  induction l with
  | nil =>
    simp only [occursInB, List.isEmpty_iff, hp]
    constructor
    · intro h; cases h
    · rintro ⟨x, y, hxy⟩
      rcases List.append_eq_nil.mp (List.append_eq_nil.mp hxy.symm).1 with ⟨_, h2⟩
      exact absurd h2 hp
  | cons c t ih =>
    simp only [occursInB, Bool.or_eq_true, isPrefixOf_ex, ih]
    constructor
    · rintro (⟨t', ht⟩ | ⟨x, y, hxy⟩)
      · exact ⟨[], t', by simp [ht]⟩
      · exact ⟨c :: x, y, by simp [hxy]⟩
    · rintro ⟨x, y, hxy⟩
      cases x with
      | nil => exact Or.inl ⟨y, by simpa using hxy⟩
      | cons a x' =>
        injection hxy with h1 h2
        exact Or.inr ⟨x', y, h2⟩

theorem occursInB_cons_of {p t : List Char} (c : Char)
    (h : occursInB p t = true) : occursInB p (c :: t) = true := by
  simp [occursInB, h]

theorem notOccurs_nil {p : List Char} (hp : p ≠ []) : occursInB p [] = false := by
  simp [occursInB, List.isEmpty_iff, hp]

theorem prefix_through_delim {d : Char} :
    ∀ (p x y : List Char), d ∉ p → p.isPrefixOf (x ++ d :: y) = true →
      p.isPrefixOf x = true
  | [], x, _, _, _ => by cases x <;> rfl
  | c :: p', [], y, hd, h => by
    simp only [List.nil_append, List.isPrefixOf, Bool.and_eq_true,
      beq_iff_eq] at h
    exact absurd (h.1 ▸ List.mem_cons_self c p') hd
  | c :: p', a :: x', y, hd, h => by
    simp only [List.cons_append, List.isPrefixOf, Bool.and_eq_true] at h ⊢
    refine ⟨h.1, prefix_through_delim p' x' y ?_ h.2⟩
    intro hm
    exact hd (List.mem_cons_of_mem c hm)

theorem occurs_split {p : List Char} (hp : p ≠ []) {d : Char} (hd : d ∉ p) :
    ∀ x y : List Char, occursInB p (x ++ d :: y) = true →
      occursInB p x = true ∨ occursInB p y = true := by
  intro x
  induction x with
  | nil =>
    intro y h
    simp only [List.nil_append, occursInB, Bool.or_eq_true] at h
    rcases h with h | h
    · obtain ⟨t, ht⟩ := isPrefixOf_ex.mp h
      cases p with
      | nil => exact absurd rfl hp
      | cons c p' =>
        rw [List.cons_append] at ht
        injection ht with h1 _
        exact absurd (h1 ▸ List.mem_cons_self c p') hd
    · exact Or.inr h
  | cons a x' ih =>
    intro y h
    simp only [List.cons_append, occursInB, Bool.or_eq_true] at h
    rcases h with h | h
    · have hpx : p.isPrefixOf (a :: x') = true :=
        prefix_through_delim p (a :: x') y hd (by simpa using h)
      exact Or.inl (by simp [occursInB, hpx])
    · rcases ih y h with h1 | h1
      · exact Or.inl (occursInB_cons_of a h1)
      · exact Or.inr h1

theorem notOccurs_glue {p : List Char} (hp : p ≠ []) {x y : List Char}
    {d : Char} (hd : d ∉ p) (hx : occursInB p x = false)
    (hy : occursInB p y = false) : occursInB p (x ++ d :: y) = false := by
  rw [Bool.eq_false_iff]
  intro h
  rcases occurs_split hp hd x y h with h1 | h1
  · rw [hx] at h1; exact Bool.false_ne_true h1
  · rw [hy] at h1; exact Bool.false_ne_true h1

theorem notOccurs_cons {p : List Char} (hp : p ≠ []) {y : List Char}
    {d : Char} (hd : d ∉ p) (hy : occursInB p y = false) :
    occursInB p (d :: y) = false := by
  have h := notOccurs_glue hp hd (notOccurs_nil hp) hy
  simpa using h

theorem notOccurs_append_sh {p : List Char} (hp : p ≠ []) {x y : List Char}
    (hx : occursInB p x = false) (hy : occursInB p y = false)
    (hhead : ∀ c, y.head? = some c → c ∉ p) :
    occursInB p (x ++ y) = false := by
  cases y with
  | nil => simpa using hx
  | cons d t =>
    have hd : d ∉ p := hhead d rfl
    have ht : occursInB p t = false := by
      cases hocc : occursInB p t
      · rfl
      · rw [occursInB_cons_of d hocc] at hy
        exact absurd hy (by simp)
    exact notOccurs_glue hp hd hx ht

theorem markerChars_ne_nil : markerChars ≠ [] := by decide

theorem strClean_occurs {s : String} (h : strClean s = true) :
    occursInB markerChars s.data = false := by
  simpa [strClean] using h

theorem safeHead_append {x y : List Char} (hx : SafeHead x) (hy : SafeHead y) :
    SafeHead (x ++ y) := by
  intro c hc
  cases x with
  | nil => exact hy c (by simpa using hc)
  | cons a t => exact hx c (by simpa using hc)

theorem safeHead_cons {d : Char} (hd : d ∉ markerChars) (t : List Char) :
    SafeHead (d :: t) := by
  intro c hc
  simp only [List.head?_cons, Option.some.injEq] at hc
  rw [← hc]
  exact hd

/-! ## Serializer cleanliness -/

theorem joinClasses_clean : ∀ classes : List String,
    (∀ c ∈ classes, strClean c = true) →
    occursInB markerChars (joinClasses classes) = false
  | [] => fun _ => notOccurs_nil markerChars_ne_nil
  | [c] => by
    intro h
    simpa [joinClasses] using strClean_occurs (h c (by simp))
  | c :: c2 :: cs => by
    intro h
    have hc := strClean_occurs (h c (by simp))
    have hrest := joinClasses_clean (c2 :: cs) (fun x hx => h x (by simp [hx]))
    simp only [joinClasses]
    exact notOccurs_glue markerChars_ne_nil (by decide) hc hrest

theorem attrsChunk_clean : ∀ attrs : List (String × String),
    (∀ pr ∈ attrs, strClean pr.1 = true ∧ strClean pr.2 = true) →
    occursInB markerChars (attrsChunk attrs) = false
  | [] => fun _ => notOccurs_nil markerChars_ne_nil
  | (n, v) :: t => by
    intro h
    have hn : occursInB markerChars n.data = false :=
      strClean_occurs (h (n, v) (by simp)).1
    have hv : occursInB markerChars v.data = false :=
      strClean_occurs (h (n, v) (by simp)).2
    have ht := attrsChunk_clean t (fun pr hpr => h pr (by simp [hpr]))
    simp only [attrsChunk, List.cons_append, List.append_assoc]
    refine notOccurs_cons markerChars_ne_nil (by decide) ?_
    refine notOccurs_glue markerChars_ne_nil (by decide) hn ?_
    refine notOccurs_cons markerChars_ne_nil (by decide) ?_
    exact notOccurs_glue markerChars_ne_nil (by decide) hv ht

theorem styleEntries_clean : ∀ style : List (String × String),
    (∀ pr ∈ style, strClean pr.1 = true ∧ strClean pr.2 = true) →
    occursInB markerChars (styleEntries style) = false
  | [] => fun _ => notOccurs_nil markerChars_ne_nil
  | (n, v) :: t => by
    intro h
    have hn : occursInB markerChars n.data = false :=
      strClean_occurs (h (n, v) (by simp)).1
    have hv : occursInB markerChars v.data = false :=
      strClean_occurs (h (n, v) (by simp)).2
    have ht := styleEntries_clean t (fun pr hpr => h pr (by simp [hpr]))
    simp only [styleEntries, List.cons_append, List.append_assoc]
    refine notOccurs_glue markerChars_ne_nil (by decide) hn ?_
    exact notOccurs_glue markerChars_ne_nil (by decide) hv ht

theorem classChunk_clean (classes : List String)
    (h : ∀ c ∈ classes, strClean c = true) :
    occursInB markerChars (classChunk classes) = false := by
  cases classes with
  | nil => exact notOccurs_nil markerChars_ne_nil
  | cons c cs =>
    show occursInB markerChars
      ([' ', 'c', 'l', 'a', 's', 's', '='] ++
        '"' :: (joinClasses (c :: cs) ++ '"' :: [])) = false
    refine notOccurs_glue markerChars_ne_nil (by decide) (by decide) ?_
    exact notOccurs_glue markerChars_ne_nil (by decide)
      (joinClasses_clean _ h) (notOccurs_nil markerChars_ne_nil)

theorem styleChunk_clean (style : List (String × String))
    (h : ∀ pr ∈ style, strClean pr.1 = true ∧ strClean pr.2 = true) :
    occursInB markerChars (styleChunk style) = false := by
  cases style with
  | nil => exact notOccurs_nil markerChars_ne_nil
  | cons p ps =>
    show occursInB markerChars
      ([' ', 's', 't', 'y', 'l', 'e', '='] ++
        '"' :: (styleEntries (p :: ps) ++ '"' :: [])) = false
    refine notOccurs_glue markerChars_ne_nil (by decide) (by decide) ?_
    exact notOccurs_glue markerChars_ne_nil (by decide)
      (styleEntries_clean _ h) (notOccurs_nil markerChars_ne_nil)

theorem attrsChunk_safeHead (attrs : List (String × String)) :
    SafeHead (attrsChunk attrs) := by
  cases attrs with
  | nil => intro c hc; simp [attrsChunk] at hc
  | cons p t =>
    obtain ⟨n, v⟩ := p
    exact safeHead_cons (by decide) _

theorem classChunk_safeHead (classes : List String) :
    SafeHead (classChunk classes) := by
  cases classes with
  | nil => intro c hc; simp [classChunk] at hc
  | cons c cs => exact safeHead_cons (by decide) _

theorem styleChunk_safeHead (style : List (String × String)) :
    SafeHead (styleChunk style) := by
  cases style with
  | nil => intro c hc; simp [styleChunk] at hc
  | cons p ps => exact safeHead_cons (by decide) _

theorem serializeN_head : ∀ x : XNode, ∃ t, serializeN x = '<' :: t
  | .el _ _ => ⟨_, rfl⟩

theorem serializeF_safeHead (f : XForest) : SafeHead (serializeF f) := by
  cases f with
  | nil => intro c hc; simp [serializeF] at hc
  | cons x f =>
    obtain ⟨t, ht⟩ := serializeN_head x
    intro c hc
    rw [serializeF, ht] at hc
    simp only [List.cons_append, List.head?_cons, Option.some.injEq] at hc
    rw [← hc]
    decide

mutual
theorem serialize_cleanN : ∀ x : XNode, strictCleanN x = true →
    occursInB markerChars (serializeN x) = false
  | .el d f => by
    intro h
    simp only [strictCleanN, Bool.and_eq_true, List.all_eq_true] at h
    obtain ⟨⟨⟨⟨⟨htag, hattrs⟩, hstyle⟩, htext⟩, hclasses⟩, hf⟩ := h
    have hattrs' : ∀ pr ∈ d.attrs, strClean pr.1 = true ∧ strClean pr.2 = true :=
      hattrs
    have hstyle' : ∀ pr ∈ d.style, strClean pr.1 = true ∧ strClean pr.2 = true :=
      hstyle
    have hclasses' : ∀ c ∈ d.classes, strClean c = true :=
      fun c hc => (hclasses c hc).2
    have hfc := serialize_cleanF f hf
    simp only [serializeN, List.append_assoc, List.cons_append]
    refine notOccurs_cons markerChars_ne_nil (by decide) ?_
    refine notOccurs_append_sh markerChars_ne_nil (strClean_occurs htag) ?_ ?_
    · refine notOccurs_append_sh markerChars_ne_nil (attrsChunk_clean _ hattrs') ?_ ?_
      · refine notOccurs_append_sh markerChars_ne_nil (classChunk_clean _ hclasses') ?_ ?_
        · refine notOccurs_append_sh markerChars_ne_nil (styleChunk_clean _ hstyle') ?_ ?_
          · refine notOccurs_cons markerChars_ne_nil (by decide) ?_
            refine notOccurs_append_sh markerChars_ne_nil (strClean_occurs htext) ?_ ?_
            · refine notOccurs_append_sh markerChars_ne_nil hfc ?_ ?_
              · refine notOccurs_cons markerChars_ne_nil (by decide) ?_
                refine notOccurs_cons markerChars_ne_nil (by decide) ?_
                refine notOccurs_append_sh markerChars_ne_nil (strClean_occurs htag) ?_ ?_
                · exact notOccurs_cons markerChars_ne_nil (by decide)
                    (notOccurs_nil markerChars_ne_nil)
                · exact safeHead_cons (by decide) _
              · exact safeHead_cons (by decide) _
            · exact safeHead_append (serializeF_safeHead f) (safeHead_cons (by decide) _)
          · exact safeHead_cons (by decide) _
        · exact safeHead_append (styleChunk_safeHead _) (safeHead_cons (by decide) _)
      · exact safeHead_append (classChunk_safeHead _)
          (safeHead_append (styleChunk_safeHead _) (safeHead_cons (by decide) _))
    · exact safeHead_append (attrsChunk_safeHead _)
        (safeHead_append (classChunk_safeHead _)
          (safeHead_append (styleChunk_safeHead _) (safeHead_cons (by decide) _)))
theorem serialize_cleanF : ∀ f : XForest, strictCleanF f = true →
    occursInB markerChars (serializeF f) = false
  | .nil => fun _ => notOccurs_nil markerChars_ne_nil
  | .cons x f => by
    intro h
    simp only [strictCleanF, Bool.and_eq_true] at h
    have hx := serialize_cleanN x h.1
    have hf := serialize_cleanF f h.2
    simp only [serializeF]
    refine notOccurs_append_sh markerChars_ne_nil hx hf ?_
    exact serializeF_safeHead f
end

/-! ## Stripping gives strict cleanliness -/

mutual
theorem clear_strictN : ∀ x : XNode, cleanN x = true →
    strictCleanN (clearMarksN x) = true
  | .el d f => by
    intro h
    simp only [cleanN, Bool.and_eq_true, Bool.or_eq_true, List.all_eq_true] at h
    obtain ⟨⟨⟨⟨⟨htag, hattrs⟩, hstyle⟩, htext⟩, hclasses⟩, hf⟩ := h
    simp only [clearMarksN, strictCleanN, Bool.and_eq_true, List.all_eq_true]
    refine ⟨⟨⟨⟨⟨htag, hattrs⟩, hstyle⟩, htext⟩, ?_⟩, clear_strictF f hf⟩
    intro c hc
    have hmem := List.mem_filter.mp hc
    have hcl := hclasses c hmem.1
    constructor
    · simpa using hmem.2
    · rcases hcl with h1 | h1
      · exact absurd (by simpa using h1) (by simpa using hmem.2)
      · exact h1
theorem clear_strictF : ∀ f : XForest, cleanF f = true →
    strictCleanF (clearMarksF f) = true
  | .nil => fun _ => rfl
  | .cons x f => by
    intro h
    simp only [cleanF, Bool.and_eq_true] at h
    simp only [clearMarksF, strictCleanF, Bool.and_eq_true]
    exact ⟨clear_strictN x h.1, clear_strictF f h.2⟩
end

theorem strip_strict (doc : XNode) (hroot : markerClass ∉ rootClasses doc)
    (hclean : cleanN doc = true) : strictCleanN (stripMarksClone doc) = true := by
  cases doc with
  | el d f =>
    simp only [cleanN, Bool.and_eq_true, Bool.or_eq_true, List.all_eq_true]
      at hclean
    obtain ⟨⟨⟨⟨⟨htag, hattrs⟩, hstyle⟩, htext⟩, hclasses⟩, hf⟩ := hclean
    simp only [stripMarksClone, strictCleanN, Bool.and_eq_true, List.all_eq_true]
    refine ⟨⟨⟨⟨⟨htag, hattrs⟩, hstyle⟩, htext⟩, ?_⟩, clear_strictF f hf⟩
    intro c hc
    have hcl := hclasses c hc
    have hne : c ≠ markerClass := by
      intro he
      rw [he] at hc
      exact hroot hc
    constructor
    · simpa using hne
    · rcases hcl with h1 | h1
      · exact absurd (by simpa using h1) hne
      · exact h1

theorem markCount_strip (doc : XNode) (hroot : markerClass ∉ rootClasses doc) :
    markCountN (stripMarksClone doc) = 0 := by
  cases doc with
  | el d f =>
    simp only [stripMarksClone, markCountN, markCount_clearF f]
    simp only [rootClasses] at hroot
    simp [hroot]

/-! ## Claim C3 -/

/-- C3: for any reachable document (the root never carries the marker, since
selection only ever marks shape descendants) whose payload strings do not
themselves spell the marker, the serialized output is free of the marker
both structurally (no element of the serialized clone carries the class) and
textually (the marker never occurs as a substring of the output), and the
live tree handed back after serialization is the unchanged original. -/
theorem serializer_no_marker (doc : XNode)
    (hroot : markerClass ∉ rootClasses doc) (hclean : cleanN doc = true) :
    markCountN (stripMarksClone doc) = 0 ∧
    occursInB markerChars (getSvgContent doc).1.data = false ∧
    (getSvgContent doc).2 = doc :=
  ⟨markCount_strip doc hroot,
   serialize_cleanN (stripMarksClone doc) (strip_strict doc hroot hclean),
   rfl⟩

/-- Witness for C3: the sample document with its highlighted circle
serializes without any trace of the marker. -/
theorem serializer_no_marker_witness :
    markerClass ∉ rootClasses sampleDoc ∧ cleanN sampleDoc = true ∧
    occursInB markerChars (getSvgContent sampleDoc).1.data = false :=
  ⟨by decide, by decide,
   (serializer_no_marker sampleDoc (by decide) (by decide)).2.1⟩

/-! ## Hexadecimal-digit lemmas -/

theorem hexDigitsAux_congr (n : ℕ) : ∀ fu₁ fu₂, n < fu₁ → n < fu₂ →
    hexDigitsAux fu₁ n = hexDigitsAux fu₂ n := by
  induction n using Nat.strong_induction_on with
  | _ n ih =>
    intro fu₁ fu₂ h₁ h₂
    match fu₁, fu₂ with
    | f₁ + 1, f₂ + 1 =>
      by_cases hn : n < 16
      · simp [hexDigitsAux, hn]
      · have hdiv : n / 16 < n := Nat.div_lt_self (by omega) (by norm_num)
        simp only [hexDigitsAux, hn, if_false]
        rw [ih (n / 16) hdiv f₁ f₂ (by omega) (by omega)]

theorem hexDigits_ge {n : ℕ} (h : 16 ≤ n) :
    hexDigits n = hexDigits (n / 16) ++ [hexDigitChar (n % 16)] := by
  have hdiv : n / 16 < n := Nat.div_lt_self (by omega) (by norm_num)
  have e1 : hexDigitsAux (n + 1) n =
      if n < 16 then [hexDigitChar n]
      else hexDigitsAux n (n / 16) ++ [hexDigitChar (n % 16)] := rfl
  rw [hexDigits, e1, if_neg (Nat.not_lt.mpr h), hexDigits]
  rw [hexDigitsAux_congr (n / 16) n (n / 16 + 1) hdiv (Nat.lt_succ_self _)]

theorem hexDigits_pack : ∀ (k v w : ℕ), 1 ≤ v → w < 16 ^ k →
    hexDigits (v * 16 ^ k + w) = hexDigits v ++ padHex w k
  | 0, v, w, _, hw => by
    have hw0 : w = 0 := by simpa using hw
    subst hw0
    simp [padHex]
  | k + 1, v, w, hv, hw => by
    have hple : 16 ≤ 16 ^ (k + 1) := by
      calc (16 : ℕ) = 16 ^ 1 := (pow_one 16).symm
      _ ≤ 16 ^ (k + 1) := Nat.pow_le_pow_right (by norm_num) (by omega)
    have hvm : 16 ^ (k + 1) ≤ v * 16 ^ (k + 1) := Nat.le_mul_of_pos_left _ hv
    have h16 : 16 ≤ v * 16 ^ (k + 1) + w := by omega
    rw [hexDigits_ge h16]
    have hdiv : (v * 16 ^ (k + 1) + w) / 16 = v * 16 ^ k + w / 16 := by
      rw [pow_succ, ← mul_assoc, Nat.add_comm,
        Nat.add_mul_div_right w _ (by norm_num : 0 < 16)]
      omega
    have hmod : (v * 16 ^ (k + 1) + w) % 16 = w % 16 := by
      rw [pow_succ, ← mul_assoc, Nat.add_comm, Nat.add_mul_mod_self_right]
    have hw16 : w / 16 < 16 ^ k := by
      rw [Nat.div_lt_iff_lt_mul (by norm_num : 0 < 16)]
      calc w < 16 ^ (k + 1) := hw
      _ = 16 ^ k * 16 := pow_succ 16 k
    rw [hdiv, hmod, hexDigits_pack k v (w / 16) hv hw16]
    simp [padHex, List.append_assoc]

theorem padHex_split : ∀ (k j a w : ℕ), w < 16 ^ k →
    padHex (a * 16 ^ k + w) (j + k) = padHex a j ++ padHex w k
  | 0, j, a, w, hw => by
    have hw0 : w = 0 := by simpa using hw
    subst hw0
    simp [padHex]
  | k + 1, j, a, w, hw => by
    have heq : j + (k + 1) = (j + k) + 1 := by omega
    have hdiv : (a * 16 ^ (k + 1) + w) / 16 = a * 16 ^ k + w / 16 := by
      rw [pow_succ, ← mul_assoc, Nat.add_comm,
        Nat.add_mul_div_right w _ (by norm_num : 0 < 16)]
      omega
    have hmod : (a * 16 ^ (k + 1) + w) % 16 = w % 16 := by
      rw [pow_succ, ← mul_assoc, Nat.add_comm, Nat.add_mul_mod_self_right]
    have hw16 : w / 16 < 16 ^ k := by
      rw [Nat.div_lt_iff_lt_mul (by norm_num : 0 < 16)]
      calc w < 16 ^ (k + 1) := hw
      _ = 16 ^ k * 16 := pow_succ 16 k
    rw [heq]
    simp only [padHex]
    rw [hdiv, hmod, padHex_split k j a (w / 16) hw16]
    simp [List.append_assoc]

theorem hexDigits_rgb (r g b : ℕ) (hr : r < 256) (hg : g < 256) (hb : b < 256) :
    hexDigits (16777216 + r * 65536 + g * 256 + b) =
      '1' :: (padHex r 2 ++ (padHex g 2 ++ padHex b 2)) := by
  have hp2 : (16 : ℕ) ^ 2 = 256 := by norm_num
  have hp4 : (16 : ℕ) ^ 4 = 65536 := by norm_num
  have hp6 : (16 : ℕ) ^ 6 = 16777216 := by norm_num
  have hinner : g * 16 ^ 2 + b < 16 ^ 4 := by rw [hp2, hp4]; omega
  have houter : r * 16 ^ 4 + (g * 16 ^ 2 + b) < 16 ^ 6 := by
    rw [hp2, hp4, hp6]; omega
  have hval : 16777216 + r * 65536 + g * 256 + b
      = 1 * 16 ^ 6 + (r * 16 ^ 4 + (g * 16 ^ 2 + b)) := by
    rw [hp2, hp4, hp6]; omega
  rw [hval, hexDigits_pack 6 1 _ (by norm_num) houter]
  rw [show hexDigits 1 = ['1'] by decide]
  rw [show (6 : ℕ) = 2 + 4 from rfl, padHex_split 4 2 r _ hinner]
  rw [show (4 : ℕ) = 2 + 2 from rfl, padHex_split 2 2 g b (by rw [hp2]; omega)]
  simp

/-! ## Digit-run lemmas -/

theorem digitRunsAux_digits : ∀ (run : List Char),
    (∀ c ∈ run, c.isDigit = true) → ∀ acc l,
    digitRunsAux (run ++ l) acc = digitRunsAux l (run.reverse ++ acc)
  | [] => by intro _ acc l; simp
  | c :: run' => by
    intro h acc l
    have hc : c.isDigit = true := h c (by simp)
    simp only [List.cons_append, digitRunsAux, hc, if_true]
    show digitRunsAux (run' ++ l) (c :: acc)
      = digitRunsAux l ((c :: run').reverse ++ acc)
    rw [digitRunsAux_digits run' (fun x hx => h x (by simp [hx])) (c :: acc) l]
    simp

theorem digitRunsAux_flush : ∀ (l acc : List Char), acc ≠ [] →
    (∀ c, l.head? = some c → c.isDigit = false) →
    digitRunsAux l acc = acc.reverse :: digitRunsAux l []
  | [], acc, hacc, _ => by
    simp [digitRunsAux, List.isEmpty_iff, hacc]
  | c :: t, acc, hacc, hh => by
    have hc := hh c rfl
    simp [digitRunsAux, hc, List.isEmpty_iff, hacc]

theorem digitRuns_skip : ∀ (a : List Char), (∀ c ∈ a, c.isDigit = false) →
    ∀ l, digitRunsAux (a ++ l) [] = digitRunsAux l []
  | [] => fun _ _ => rfl
  | c :: a' => by
    intro h l
    have hc := h c (by simp)
    simp only [List.cons_append, digitRunsAux, hc, Bool.false_eq_true,
      if_false, List.isEmpty_nil, if_true]
    show digitRunsAux (a' ++ l) [] = digitRunsAux l []
    exact digitRuns_skip a' (fun x hx => h x (by simp [hx])) l

theorem digitRuns_take (run : List Char) (hne : run ≠ [])
    (hdig : ∀ c ∈ run, c.isDigit = true) (l : List Char)
    (hl : ∀ c, l.head? = some c → c.isDigit = false) :
    digitRunsAux (run ++ l) [] = run :: digitRunsAux l [] := by
  rw [digitRunsAux_digits run hdig [] l, List.append_nil,
    digitRunsAux_flush l run.reverse (by simpa using hne) hl]
  simp

/-! ## The color strings -/

theorem strData_append (s t : String) : (s ++ t).data = s.data ++ t.data := rfl

theorem rgbStr_data (r g b : ℕ) : (rgbStr r g b).data =
    ['r', 'g', 'b', '('] ++ (natDigits r ++ (',' :: ' ' ::
      (natDigits g ++ (',' :: ' ' :: (natDigits b ++ [')']))))) := by
  simp only [rgbStr, natStr, strData_append]
  simp [List.append_assoc]

theorem digitRuns_rgbStr (r g b : ℕ) :
    digitRuns (rgbStr r g b).data = [natDigits r, natDigits g, natDigits b] := by
  rw [digitRuns, rgbStr_data]
  rw [digitRuns_skip ['r', 'g', 'b', '('] (by decide)]
  rw [digitRuns_take (natDigits r) (natDigits_ne_nil r) (natDigits_all_digit r) _
    (fun c hc => by simp at hc; rw [← hc]; rfl)]
  rw [show (',' :: ' ' :: (natDigits g ++ (',' :: ' ' :: (natDigits b ++ [')']))))
      = [',', ' '] ++ (natDigits g ++ (',' :: ' ' :: (natDigits b ++ [')'])))
    from rfl]
  rw [digitRuns_skip [',', ' '] (by decide)]
  rw [digitRuns_take (natDigits g) (natDigits_ne_nil g) (natDigits_all_digit g) _
    (fun c hc => by simp at hc; rw [← hc]; rfl)]
  rw [show (',' :: ' ' :: (natDigits b ++ [')']))
      = [',', ' '] ++ (natDigits b ++ [')']) from rfl]
  rw [digitRuns_skip [',', ' '] (by decide)]
  rw [digitRuns_take (natDigits b) (natDigits_ne_nil b) (natDigits_all_digit b) _
    (fun c hc => by simp at hc; rw [← hc]; rfl)]
  rfl

theorem rgbStr_not_sentinel (r g b : ℕ) :
    rgbStr r g b ≠ "" ∧ rgbStr r g b ≠ "none" ∧
    rgbStr r g b ≠ "transparent" ∧ ¬ (rgbStr r g b).data.head? = some '#' := by
  have hd := rgbStr_data r g b
  refine ⟨?_, ?_, ?_, ?_⟩
  · intro h
    have h2 := congrArg String.data h
    rw [hd] at h2
    simp at h2
  · intro h
    have h2 := congrArg String.data h
    rw [hd] at h2
    simp at h2
  · intro h
    have h2 := congrArg String.data h
    rw [hd] at h2
    simp at h2
  · intro h
    rw [hd] at h
    simp at h

/-! ## Claim C9 -/

/-- C9 (amended): the canonical RGB functional form `rgb(r, g, b)` (as
computed styles print it) converts to six-digit lowercase hex for component
values up to 255, and a string already starting with `#` passes through
unchanged; but the fallbacks are two different constants, not one: empty
and sentinel inputs give white while other inputs with fewer than three
digit runs give black. -/
theorem rgbToHex_contract :
    (∀ r g b : ℕ, r ≤ 255 → g ≤ 255 → b ≤ 255 →
      rgbToHex (rgbStr r g b) = hexColor r g b) ∧
    (∀ col : String, ¬ (col = "" ∨ col = "none" ∨ col = "transparent") →
      col.data.head? = some '#' → rgbToHex col = col) ∧
    rgbToHex "" = "#ffffff" ∧ rgbToHex "none" = "#ffffff" ∧
    rgbToHex "transparent" = "#ffffff" ∧
    (∀ col : String, ¬ (col = "" ∨ col = "none" ∨ col = "transparent") →
      ¬ col.data.head? = some '#' → (digitRuns col.data).length < 3 →
      rgbToHex col = "#000000") := by
  refine ⟨?_, ?_, rfl, rfl, rfl, ?_⟩
  · intro r g b hr hg hb
    obtain ⟨h1, h2, h3, h4⟩ := rgbStr_not_sentinel r g b
    rw [rgbToHex]
    rw [if_neg (by simp [h1, h2, h3]), if_neg h4]
    rw [digitRuns_rgbStr]
    simp only [digitsVal_natDigits]
    rw [hexDigits_rgb r g b (by omega) (by omega) (by omega)]
    simp only [List.drop_succ_cons, List.drop_zero]
    rw [hexColor]
    simp [hex2, List.append_assoc]
  · intro col hsent hhash
    push_neg at hsent
    obtain ⟨h1, h2, h3⟩ := hsent
    rw [rgbToHex, if_neg (by simp [h1, h2, h3]), if_pos hhash]
  · intro col hsent hhash hlen
    push_neg at hsent
    obtain ⟨h1, h2, h3⟩ := hsent
    rw [rgbToHex, if_neg (by simp [h1, h2, h3]), if_neg hhash]
    rcases hruns : digitRuns col.data with _ | ⟨x, _ | ⟨y, _ | ⟨z, rest⟩⟩⟩
    · rfl
    · rfl
    · rfl
    · rw [hruns] at hlen
      exact absurd hlen (by simp)

/-- Witness for C9's amended conversion clause at a concrete color. -/
theorem rgbToHex_contract_witness :
    (255 : ℕ) ≤ 255 ∧ (128 : ℕ) ≤ 255 ∧ (0 : ℕ) ≤ 255 ∧
    rgbToHex (rgbStr 255 128 0) = hexColor 255 128 0 :=
  ⟨by decide, by decide, by decide,
   rgbToHex_contract.1 255 128 0 (by decide) (by decide) (by decide)⟩

/-- Counterexample for C9 as stated: the sentinel fallback is white but the
unparseable fallback is black, so no single default covers both. -/
theorem rgbToHex_counterexample : ¬ SingleFallback := by
  rintro ⟨dflt, h1, _, h3⟩
  have hx := h3 "x" (by decide) (by decide) (by decide)
  have ha : rgbToHex "none" = "#ffffff" := rfl
  have hb : rgbToHex "x" = "#000000" := by decide
  rw [ha] at h1
  rw [hb] at hx
  rw [← h1] at hx
  exact absurd hx (by decide)

/-! ## Claim C6 -/

/-- Closed form of the drag conversion: the screen delta is pushed through
the inverse of the screen matrix (only its linear part survives the
difference), added to the drag-start transform, and rounded to a tenth. -/
theorem dragDelta_general (m : Affine) (ds : DragStart) (tr : TransformState)
    (ex ey : ℚ) (sel : ℕ) (hdet : matDet m ≠ 0) :
    handleWindowMouseMove true (some sel) (some ds) (some m) tr ex ey =
      some { tr with
        x := round1 (ds.initialX + (m.d * (ex - ds.x) - m.c * (ey - ds.y)) / matDet m),
        y := round1 (ds.initialY + (m.a * (ey - ds.y) - m.b * (ex - ds.x)) / matDet m) } := by
  have hx : (matApply (matInverse m) (ex, ey)).1
      - (matApply (matInverse m) (ds.x, ds.y)).1
      = (m.d * (ex - ds.x) - m.c * (ey - ds.y)) / matDet m := by
    simp only [matApply, matInverse]
    field_simp
    ring
  have hy : (matApply (matInverse m) (ex, ey)).2
      - (matApply (matInverse m) (ds.x, ds.y)).2
      = (m.a * (ey - ds.y) - m.b * (ex - ds.x)) / matDet m := by
    simp only [matApply, matInverse]
    field_simp
    ring
  simp only [handleWindowMouseMove, not_true, if_false, hx, hy]

/-- C6: in general the drag handler converts the screen delta to surface
space through the inverse screen matrix, adds it to the drag-start
transform, and rounds to one decimal; in particular a 50-pixel horizontal
drag at identity screen transform and identity starting transform yields
exactly x = 50 with y unchanged at 0. -/
theorem dragDelta_contract :
    (∀ (m : Affine) (ds : DragStart) (tr : TransformState) (ex ey : ℚ)
      (sel : ℕ), matDet m ≠ 0 →
      handleWindowMouseMove true (some sel) (some ds) (some m) tr ex ey =
        some { tr with
          x := round1 (ds.initialX + (m.d * (ex - ds.x) - m.c * (ey - ds.y)) / matDet m),
          y := round1 (ds.initialY + (m.a * (ey - ds.y) - m.b * (ex - ds.x)) / matDet m) }) ∧
    (∀ (sx sy : ℚ) (sel : ℕ),
      handleWindowMouseMove true (some sel) (some ⟨sx, sy, 0, 0⟩)
        (some ⟨1, 0, 0, 1, 0, 0⟩) ⟨0, 0, 1, 0⟩ (sx + 50) sy =
        some ⟨50, 0, 1, 0⟩) := by
  constructor
  · intro m ds tr ex ey sel hdet
    exact dragDelta_general m ds tr ex ey sel hdet
  · intro sx sy sel
    rw [dragDelta_general ⟨1, 0, 0, 1, 0, 0⟩ ⟨sx, sy, 0, 0⟩ ⟨0, 0, 1, 0⟩
      (sx + 50) sy sel (by norm_num [matDet])]
    have h50 : (0 : ℚ) + (1 * (sx + 50 - sx) - 0 * (sy - sy)) /
        matDet ⟨1, 0, 0, 1, 0, 0⟩ = 50 := by
      simp [matDet]
    have h0 : (0 : ℚ) + (1 * (sy - sy) - 0 * (sx + 50 - sx)) /
        matDet ⟨1, 0, 0, 1, 0, 0⟩ = 0 := by
      simp [matDet]
    rw [h50, h0]
    rw [show round1 (50 : ℚ) = 50 by with_unfolding_all decide,
      show round1 (0 : ℚ) = 0 by with_unfolding_all decide]

/-- Witness for C6 at a concrete screen matrix and drag. -/
theorem dragDelta_contract_witness :
    matDet ⟨2, 0, 0, 2, 5, 7⟩ ≠ 0 ∧
    handleWindowMouseMove true (some 3) (some ⟨100, 40, 1, 2⟩)
      (some ⟨2, 0, 0, 2, 5, 7⟩) ⟨1, 2, 1, 0⟩ 150 40 =
      some { TransformState.mk 1 2 1 0 with
        x := round1 (1 + (2 * (150 - 100) - 0 * (40 - 40)) / matDet ⟨2, 0, 0, 2, 5, 7⟩),
        y := round1 (2 + (2 * (40 - 40) - 0 * (150 - 100)) / matDet ⟨2, 0, 0, 2, 5, 7⟩) } :=
  ⟨by with_unfolding_all decide,
   dragDelta_contract.1 ⟨2, 0, 0, 2, 5, 7⟩ ⟨100, 40, 1, 2⟩ ⟨1, 2, 1, 0⟩ 150 40 3
     (by with_unfolding_all decide)⟩

/-! ## Scanner lemmas -/

theorem numChar_not_special {c : Char} (h : numChar c = true) :
    c ≠ 't' ∧ c ≠ 'r' ∧ c ≠ 's' ∧ c ≠ ' ' ∧ c ≠ ',' ∧ c ≠ '(' ∧ c ≠ ')' := by
  refine ⟨?_, ?_, ?_, ?_, ?_, ?_, ?_⟩ <;>
    (intro he; subst he; exact absurd h (by decide))

theorem printQChars_all_num (q : ℚ) : ∀ c ∈ printQChars q, numChar c = true := by
  intro c hc
  have hdig : ∀ c' : Char, c'.isDigit = true → numChar c' = true := by
    intro c' h'
    simp [numChar, h']
  rw [printQChars] at hc
  cases hk : decExp q.den with
  | none =>
    rw [hk] at hc
    simp at hc
    subst hc
    decide
  | some k =>
    have he : (match decExp q.den with
        | none => ['0']
        | some k =>
          let m := q.num.natAbs * (10 ^ k / q.den)
          let sgn : List Char := if q.num < 0 then ['-'] else []
          if k = 0 then sgn ++ natDigits m
          else sgn ++ natDigits (m / 10 ^ k) ++ '.' :: padDigits (m % 10 ^ k) k) =
        (if k = 0 then
          (if q.num < 0 then ['-'] else []) ++
            natDigits (q.num.natAbs * (10 ^ k / q.den))
        else
          (if q.num < 0 then ['-'] else []) ++
            natDigits (q.num.natAbs * (10 ^ k / q.den) / 10 ^ k) ++
            '.' :: padDigits (q.num.natAbs * (10 ^ k / q.den) % 10 ^ k) k) := by
      rw [hk]
    rw [he] at hc
    by_cases hk0 : k = 0
    · rw [if_pos hk0] at hc
      rcases List.mem_append.mp hc with h | h
      · by_cases hn : q.num < 0
        · rw [if_pos hn] at h; simp at h; subst h; decide
        · rw [if_neg hn] at h; simp at h
      · exact hdig c (natDigits_all_digit _ c h)
    · rw [if_neg hk0] at hc
      rcases List.mem_append.mp hc with h | h
      · rcases List.mem_append.mp h with h2 | h2
        · by_cases hn : q.num < 0
          · rw [if_pos hn] at h2; simp at h2; subst h2; decide
          · rw [if_neg hn] at h2; simp at h2
        · exact hdig c (natDigits_all_digit _ c h2)
      · simp only [List.mem_cons] at h
        rcases h with h | h
        · subst h; decide
        · exact hdig c (padDigits_all_digit _ _ c h)

theorem printQChars_ne_nil (q : ℚ) : printQChars q ≠ [] := by
  rw [printQChars]
  cases hk : decExp q.den with
  | none => simp
  | some k =>
    by_cases hk0 : k = 0 <;> by_cases hn : q.num < 0 <;>
      simp [hk0, hn, natDigits_ne_nil]

theorem printQChars_head_num (q : ℚ) :
    ∃ c t, printQChars q = c :: t ∧ numChar c = true := by
  cases hp : printQChars q with
  | nil => exact absurd hp (printQChars_ne_nil q)
  | cons c t => exact ⟨c, t, rfl, printQChars_all_num q c (by rw [hp]; simp)⟩

theorem isPrefixOf_head_ne {c c' : Char} {p l : List Char} (h : c ≠ c') :
    (c :: p).isPrefixOf (c' :: l) = false := by
  rw [Bool.eq_false_iff]
  intro hx
  obtain ⟨t, ht⟩ := isPrefixOf_ex.mp hx
  rw [List.cons_append] at ht
  injection ht with h1 _
  exact h h1.symm

theorem scanTranslate_cons_none {c : Char} {t : List Char}
    (h : matchTranslateAt (c :: t) = none) :
    scanTranslate (c :: t) = scanTranslate t := by
  simp only [scanTranslate, h]

theorem scanRotate_cons_none {c : Char} {t : List Char}
    (h : matchRotateAt (c :: t) = none) :
    scanRotate (c :: t) = scanRotate t := by
  simp only [scanRotate, h]

theorem scanScale_cons_none {c : Char} {t : List Char}
    (h : matchScaleAt (c :: t) = none) :
    scanScale (c :: t) = scanScale t := by
  simp only [scanScale, h]

theorem scanTranslate_here {l : List Char} {r : List Char × List Char}
    (h : matchTranslateAt l = some r) : scanTranslate l = some r := by
  cases l with
  | nil => rw [show matchTranslateAt [] = none from rfl] at h; cases h
  | cons c t => simp only [scanTranslate, h]

theorem scanRotate_here {l : List Char} {r : List Char}
    (h : matchRotateAt l = some r) : scanRotate l = some r := by
  cases l with
  | nil => rw [show matchRotateAt [] = none from rfl] at h; cases h
  | cons c t => simp only [scanRotate, h]

theorem scanScale_here {l : List Char} {r : List Char}
    (h : matchScaleAt l = some r) : scanScale l = some r := by
  cases l with
  | nil => rw [show matchScaleAt [] = none from rfl] at h; cases h
  | cons c t => simp only [scanScale, h]

theorem matchTranslateAt_head (c : Char) (t : List Char) (h : c ≠ 't') :
    matchTranslateAt (c :: t) = none := by
  have hpre : litTranslate.isPrefixOf (c :: t) = false :=
    isPrefixOf_head_ne (by intro he; exact h he.symm)
  simp [matchTranslateAt, hpre]

theorem matchRotateAt_head (c : Char) (t : List Char) (h : c ≠ 'r') :
    matchRotateAt (c :: t) = none := by
  have hpre : litRotate.isPrefixOf (c :: t) = false :=
    isPrefixOf_head_ne (by intro he; exact h he.symm)
  simp [matchRotateAt, hpre]

theorem matchScaleAt_head (c : Char) (t : List Char) (h : c ≠ 's') :
    matchScaleAt (c :: t) = none := by
  have hpre : litScale.isPrefixOf (c :: t) = false :=
    isPrefixOf_head_ne (by intro he; exact h he.symm)
  simp [matchScaleAt, hpre]

theorem matchTranslateAt_two (c₂ : Char) (t : List Char) (h : c₂ ≠ 'r') :
    matchTranslateAt ('t' :: c₂ :: t) = none := by
  have hpre : litTranslate.isPrefixOf ('t' :: c₂ :: t) = false := by
    rw [Bool.eq_false_iff]
    intro hx
    obtain ⟨w, hw⟩ := isPrefixOf_ex.mp hx
    rw [litTranslate] at hw
    simp only [List.cons_append] at hw
    injection hw with _ hw2
    injection hw2 with h2 _
    exact h h2
  simp [matchTranslateAt, hpre]

theorem matchRotateAt_two (c₂ : Char) (t : List Char) (h : c₂ ≠ 'o') :
    matchRotateAt ('r' :: c₂ :: t) = none := by
  have hpre : litRotate.isPrefixOf ('r' :: c₂ :: t) = false := by
    rw [Bool.eq_false_iff]
    intro hx
    obtain ⟨w, hw⟩ := isPrefixOf_ex.mp hx
    rw [litRotate] at hw
    simp only [List.cons_append] at hw
    injection hw with _ hw2
    injection hw2 with h2 _
    exact h h2
  simp [matchRotateAt, hpre]

theorem matchScaleAt_two (c₂ : Char) (t : List Char) (h : c₂ ≠ 'c') :
    matchScaleAt ('s' :: c₂ :: t) = none := by
  have hpre : litScale.isPrefixOf ('s' :: c₂ :: t) = false := by
    rw [Bool.eq_false_iff]
    intro hx
    obtain ⟨w, hw⟩ := isPrefixOf_ex.mp hx
    rw [litScale] at hw
    simp only [List.cons_append] at hw
    injection hw with _ hw2
    injection hw2 with h2 _
    exact h h2
  simp [matchScaleAt, hpre]

theorem scanTranslate_skip {a : List Char} (h : ∀ c ∈ a, c ≠ 't')
    (b : List Char) : scanTranslate (a ++ b) = scanTranslate b := by
  induction a with
  | nil => simp
  | cons c t ih =>
    rw [List.cons_append,
      scanTranslate_cons_none (matchTranslateAt_head c _ (h c (by simp))),
      ih (fun x hx => h x (by simp [hx]))]

theorem scanRotate_skip {a : List Char} (h : ∀ c ∈ a, c ≠ 'r')
    (b : List Char) : scanRotate (a ++ b) = scanRotate b := by
  induction a with
  | nil => simp
  | cons c t ih =>
    rw [List.cons_append,
      scanRotate_cons_none (matchRotateAt_head c _ (h c (by simp))),
      ih (fun x hx => h x (by simp [hx]))]

theorem scanScale_skip {a : List Char} (h : ∀ c ∈ a, c ≠ 's')
    (b : List Char) : scanScale (a ++ b) = scanScale b := by
  induction a with
  | nil => simp
  | cons c t ih =>
    rw [List.cons_append,
      scanScale_cons_none (matchScaleAt_head c _ (h c (by simp))),
      ih (fun x hx => h x (by simp [hx]))]

theorem printQChars_no_t (q : ℚ) : ∀ c ∈ printQChars q, c ≠ 't' :=
  fun c hc => (numChar_not_special (printQChars_all_num q c hc)).1

theorem printQChars_no_r (q : ℚ) : ∀ c ∈ printQChars q, c ≠ 'r' :=
  fun c hc => (numChar_not_special (printQChars_all_num q c hc)).2.1

theorem printQChars_no_s (q : ℚ) : ∀ c ∈ printQChars q, c ≠ 's' :=
  fun c hc => (numChar_not_special (printQChars_all_num q c hc)).2.2.1

/-! ## The editor's pattern matches on canonical components -/

theorem numChar_not_sep {c : Char} (h : numChar c = true) : sepChar c = false := by
  obtain ⟨-, -, -, h4, h5, -, -⟩ := numChar_not_special h
  simp [sepChar, h4, h5]

theorem numChar_not_wsp {c : Char} (h : numChar c = true) : wspChar c = false := by
  obtain ⟨-, -, -, h4, -, -, -⟩ := numChar_not_special h
  simp [wspChar, h4]

theorem numChar_not_cwsp {c : Char} (h : numChar c = true) : cwspChar c = false := by
  obtain ⟨-, -, -, h4, h5, -, -⟩ := numChar_not_special h
  simp [cwspChar, h4, h5]

theorem dropWhile_printQ {p : Char → Bool}
    (hp : ∀ c, numChar c = true → p c = false) (q : ℚ) (z : List Char) :
    (printQChars q ++ z).dropWhile p = printQChars q ++ z := by
  obtain ⟨c, t, hq, hc⟩ := printQChars_head_num q
  rw [hq, List.cons_append]
  simp [List.dropWhile_cons, hp c hc]

theorem takeWhile_num_printQ (q : ℚ) (c : Char) (hc : numChar c = false)
    (z : List Char) :
    (printQChars q ++ c :: z).takeWhile numChar = printQChars q := by
  rw [takeWhile_append_all _ (printQChars_all_num q)]
  simp [List.takeWhile_cons, hc]

theorem dropWhile_num_printQ (q : ℚ) (c : Char) (hc : numChar c = false)
    (z : List Char) :
    (printQChars q ++ c :: z).dropWhile numChar = c :: z := by
  rw [dropWhile_append_all _ (printQChars_all_num q)]
  simp [List.dropWhile_cons, hc]

theorem printQ_not_isEmpty (q : ℚ) : (printQChars q).isEmpty = false := by
  obtain ⟨c, t, hq, -⟩ := printQChars_head_num q
  rw [hq]
  rfl

theorem printQ_head_ne_rpar (q : ℚ) {z : List Char}
    (h : (printQChars q ++ z).head? = some ')') : False := by
  obtain ⟨c, t, hq, hc⟩ := printQChars_head_num q
  rw [hq, List.cons_append, List.head?_cons] at h
  injection h with h
  exact (numChar_not_special hc).2.2.2.2.2.2 h

theorem matchTranslate_tPart (x y : ℚ) (rest : List Char) :
    matchTranslateAt (tPart x y ++ rest) =
      some (printQChars x, printQChars y) := by
  have hshape : tPart x y ++ rest = litTranslate ++
      (printQChars x ++ ',' :: ' ' :: (printQChars y ++ ')' :: rest)) := by
    simp [tPart]
  rw [hshape]
  have hpre : litTranslate.isPrefixOf (litTranslate ++
      (printQChars x ++ ',' :: ' ' :: (printQChars y ++ ')' :: rest))) = true :=
    isPrefixOf_ex.mpr ⟨_, rfl⟩
  simp only [matchTranslateAt]
  rw [if_pos hpre, List.drop_left]
  rw [takeWhile_num_printQ x ',' (by decide), dropWhile_num_printQ x ',' (by decide)]
  rw [if_neg (by rw [printQ_not_isEmpty]; exact Bool.false_ne_true)]
  have htw : ((',' :: ' ' :: (printQChars y ++ ')' :: rest)).takeWhile
      sepChar).isEmpty = false := by
    simp [List.takeWhile_cons, sepChar]
  rw [if_neg (by rw [htw]; exact Bool.false_ne_true)]
  have hdw : (',' :: ' ' :: (printQChars y ++ ')' :: rest)).dropWhile sepChar =
      printQChars y ++ ')' :: rest := by
    rw [List.dropWhile_cons, if_pos (by decide), List.dropWhile_cons,
      if_pos (by decide)]
    exact dropWhile_printQ (fun c hc => numChar_not_sep hc) y _
  rw [hdw, takeWhile_num_printQ y ')' (by decide),
    dropWhile_num_printQ y ')' (by decide)]
  rw [if_neg (by rw [printQ_not_isEmpty]; exact Bool.false_ne_true)]
  rw [if_pos (by rw [List.head?_cons])]

theorem matchRotate_rPart (a cx cy : ℚ) (rest : List Char) :
    matchRotateAt (rPart a cx cy ++ rest) = some (printQChars a) := by
  have hshape : rPart a cx cy ++ rest = litRotate ++
      (printQChars a ++ ',' :: ' ' :: (printQChars cx ++ ',' :: ' ' ::
        (printQChars cy ++ ')' :: rest))) := by
    simp [rPart]
  rw [hshape]
  have hpre : litRotate.isPrefixOf (litRotate ++
      (printQChars a ++ ',' :: ' ' :: (printQChars cx ++ ',' :: ' ' ::
        (printQChars cy ++ ')' :: rest)))) = true :=
    isPrefixOf_ex.mpr ⟨_, rfl⟩
  simp only [matchRotateAt]
  rw [if_pos hpre, List.drop_left]
  rw [takeWhile_num_printQ a ',' (by decide)]
  rw [if_neg (by rw [printQ_not_isEmpty]; exact Bool.false_ne_true)]

theorem matchScale_sPart (v : ℚ) (rest : List Char) :
    matchScaleAt (sPart v ++ rest) = some (printQChars v) := by
  have hshape : sPart v ++ rest = litScale ++ (printQChars v ++ ')' :: rest) := by
    simp [sPart]
  rw [hshape]
  have hpre : litScale.isPrefixOf
      (litScale ++ (printQChars v ++ ')' :: rest)) = true :=
    isPrefixOf_ex.mpr ⟨_, rfl⟩
  simp only [matchScaleAt]
  rw [if_pos hpre, List.drop_left]
  rw [takeWhile_num_printQ v ')' (by decide), dropWhile_num_printQ v ')' (by decide)]
  rw [if_neg (by rw [printQ_not_isEmpty]; exact Bool.false_ne_true)]
  rw [if_pos (by rw [List.head?_cons])]

theorem matchScale_sPart2 (sx sy : ℚ) (rest : List Char) :
    matchScaleAt (sPart2 sx sy ++ rest) = none := by
  have hshape : sPart2 sx sy ++ rest = litScale ++
      (printQChars sx ++ ',' :: ' ' :: (printQChars sy ++ ')' :: rest)) := by
    simp [sPart2]
  rw [hshape]
  have hpre : litScale.isPrefixOf (litScale ++
      (printQChars sx ++ ',' :: ' ' :: (printQChars sy ++ ')' :: rest))) = true :=
    isPrefixOf_ex.mpr ⟨_, rfl⟩
  simp only [matchScaleAt]
  rw [if_pos hpre, List.drop_left]
  rw [takeWhile_num_printQ sx ',' (by decide),
    dropWhile_num_printQ sx ',' (by decide)]
  rw [if_neg (by rw [printQ_not_isEmpty]; exact Bool.false_ne_true)]
  rw [if_neg (by rw [List.head?_cons]; intro h; injection h with h; cases h)]

/-! ## Scanning past foreign components -/

theorem scanTranslate_wsp (z : List Char) :
    scanTranslate (' ' :: z) = scanTranslate z :=
  scanTranslate_cons_none (matchTranslateAt_head ' ' _ (by decide))

theorem scanRotate_wsp (z : List Char) :
    scanRotate (' ' :: z) = scanRotate z :=
  scanRotate_cons_none (matchRotateAt_head ' ' _ (by decide))

theorem scanScale_wsp (z : List Char) :
    scanScale (' ' :: z) = scanScale z :=
  scanScale_cons_none (matchScaleAt_head ' ' _ (by decide))

theorem scanRotate_tPart (x y : ℚ) (rest : List Char) :
    scanRotate (tPart x y ++ rest) = scanRotate rest := by
  have hshape : tPart x y ++ rest =
      't' :: 'r' :: 'a' :: 'n' :: 's' :: 'l' :: 'a' :: 't' :: 'e' :: '(' ::
        (printQChars x ++ ',' :: ' ' :: (printQChars y ++ ')' :: rest)) := by
    simp [tPart, litTranslate]
  rw [hshape]
  rw [scanRotate_cons_none (matchRotateAt_head 't' _ (by decide))]
  rw [scanRotate_cons_none (matchRotateAt_two 'a' _ (by decide))]
  rw [scanRotate_cons_none (matchRotateAt_head 'a' _ (by decide))]
  rw [scanRotate_cons_none (matchRotateAt_head 'n' _ (by decide))]
  rw [scanRotate_cons_none (matchRotateAt_head 's' _ (by decide))]
  rw [scanRotate_cons_none (matchRotateAt_head 'l' _ (by decide))]
  rw [scanRotate_cons_none (matchRotateAt_head 'a' _ (by decide))]
  rw [scanRotate_cons_none (matchRotateAt_head 't' _ (by decide))]
  rw [scanRotate_cons_none (matchRotateAt_head 'e' _ (by decide))]
  rw [scanRotate_cons_none (matchRotateAt_head '(' _ (by decide))]
  rw [scanRotate_skip (printQChars_no_r x)]
  rw [scanRotate_cons_none (matchRotateAt_head ',' _ (by decide))]
  rw [scanRotate_cons_none (matchRotateAt_head ' ' _ (by decide))]
  rw [scanRotate_skip (printQChars_no_r y)]
  rw [scanRotate_cons_none (matchRotateAt_head ')' _ (by decide))]

theorem scanScale_tPart (x y : ℚ) (rest : List Char) :
    scanScale (tPart x y ++ rest) = scanScale rest := by
  have hshape : tPart x y ++ rest =
      't' :: 'r' :: 'a' :: 'n' :: 's' :: 'l' :: 'a' :: 't' :: 'e' :: '(' ::
        (printQChars x ++ ',' :: ' ' :: (printQChars y ++ ')' :: rest)) := by
    simp [tPart, litTranslate]
  rw [hshape]
  rw [scanScale_cons_none (matchScaleAt_head 't' _ (by decide))]
  rw [scanScale_cons_none (matchScaleAt_head 'r' _ (by decide))]
  rw [scanScale_cons_none (matchScaleAt_head 'a' _ (by decide))]
  rw [scanScale_cons_none (matchScaleAt_head 'n' _ (by decide))]
  rw [scanScale_cons_none (matchScaleAt_two 'l' _ (by decide))]
  rw [scanScale_cons_none (matchScaleAt_head 'l' _ (by decide))]
  rw [scanScale_cons_none (matchScaleAt_head 'a' _ (by decide))]
  rw [scanScale_cons_none (matchScaleAt_head 't' _ (by decide))]
  rw [scanScale_cons_none (matchScaleAt_head 'e' _ (by decide))]
  rw [scanScale_cons_none (matchScaleAt_head '(' _ (by decide))]
  rw [scanScale_skip (printQChars_no_s x)]
  rw [scanScale_cons_none (matchScaleAt_head ',' _ (by decide))]
  rw [scanScale_cons_none (matchScaleAt_head ' ' _ (by decide))]
  rw [scanScale_skip (printQChars_no_s y)]
  rw [scanScale_cons_none (matchScaleAt_head ')' _ (by decide))]

theorem scanTranslate_rPart (a cx cy : ℚ) (rest : List Char) :
    scanTranslate (rPart a cx cy ++ rest) = scanTranslate rest := by
  have hshape : rPart a cx cy ++ rest =
      'r' :: 'o' :: 't' :: 'a' :: 't' :: 'e' :: '(' ::
        (printQChars a ++ ',' :: ' ' :: (printQChars cx ++ ',' :: ' ' ::
          (printQChars cy ++ ')' :: rest))) := by
    simp [rPart, litRotate]
  rw [hshape]
  rw [scanTranslate_cons_none (matchTranslateAt_head 'r' _ (by decide))]
  rw [scanTranslate_cons_none (matchTranslateAt_head 'o' _ (by decide))]
  rw [scanTranslate_cons_none (matchTranslateAt_two 'a' _ (by decide))]
  rw [scanTranslate_cons_none (matchTranslateAt_head 'a' _ (by decide))]
  rw [scanTranslate_cons_none (matchTranslateAt_two 'e' _ (by decide))]
  rw [scanTranslate_cons_none (matchTranslateAt_head 'e' _ (by decide))]
  rw [scanTranslate_cons_none (matchTranslateAt_head '(' _ (by decide))]
  rw [scanTranslate_skip (printQChars_no_t a)]
  rw [scanTranslate_cons_none (matchTranslateAt_head ',' _ (by decide))]
  rw [scanTranslate_cons_none (matchTranslateAt_head ' ' _ (by decide))]
  rw [scanTranslate_skip (printQChars_no_t cx)]
  rw [scanTranslate_cons_none (matchTranslateAt_head ',' _ (by decide))]
  rw [scanTranslate_cons_none (matchTranslateAt_head ' ' _ (by decide))]
  rw [scanTranslate_skip (printQChars_no_t cy)]
  rw [scanTranslate_cons_none (matchTranslateAt_head ')' _ (by decide))]

theorem scanScale_rPart (a cx cy : ℚ) (rest : List Char) :
    scanScale (rPart a cx cy ++ rest) = scanScale rest := by
  have hshape : rPart a cx cy ++ rest =
      'r' :: 'o' :: 't' :: 'a' :: 't' :: 'e' :: '(' ::
        (printQChars a ++ ',' :: ' ' :: (printQChars cx ++ ',' :: ' ' ::
          (printQChars cy ++ ')' :: rest))) := by
    simp [rPart, litRotate]
  rw [hshape]
  rw [scanScale_cons_none (matchScaleAt_head 'r' _ (by decide))]
  rw [scanScale_cons_none (matchScaleAt_head 'o' _ (by decide))]
  rw [scanScale_cons_none (matchScaleAt_head 't' _ (by decide))]
  rw [scanScale_cons_none (matchScaleAt_head 'a' _ (by decide))]
  rw [scanScale_cons_none (matchScaleAt_head 't' _ (by decide))]
  rw [scanScale_cons_none (matchScaleAt_head 'e' _ (by decide))]
  rw [scanScale_cons_none (matchScaleAt_head '(' _ (by decide))]
  rw [scanScale_skip (printQChars_no_s a)]
  rw [scanScale_cons_none (matchScaleAt_head ',' _ (by decide))]
  rw [scanScale_cons_none (matchScaleAt_head ' ' _ (by decide))]
  rw [scanScale_skip (printQChars_no_s cx)]
  rw [scanScale_cons_none (matchScaleAt_head ',' _ (by decide))]
  rw [scanScale_cons_none (matchScaleAt_head ' ' _ (by decide))]
  rw [scanScale_skip (printQChars_no_s cy)]
  rw [scanScale_cons_none (matchScaleAt_head ')' _ (by decide))]

theorem scanTranslate_sPart (v : ℚ) (rest : List Char) :
    scanTranslate (sPart v ++ rest) = scanTranslate rest := by
  have hshape : sPart v ++ rest =
      's' :: 'c' :: 'a' :: 'l' :: 'e' :: '(' ::
        (printQChars v ++ ')' :: rest) := by
    simp [sPart, litScale]
  rw [hshape]
  rw [scanTranslate_cons_none (matchTranslateAt_head 's' _ (by decide))]
  rw [scanTranslate_cons_none (matchTranslateAt_head 'c' _ (by decide))]
  rw [scanTranslate_cons_none (matchTranslateAt_head 'a' _ (by decide))]
  rw [scanTranslate_cons_none (matchTranslateAt_head 'l' _ (by decide))]
  rw [scanTranslate_cons_none (matchTranslateAt_head 'e' _ (by decide))]
  rw [scanTranslate_cons_none (matchTranslateAt_head '(' _ (by decide))]
  rw [scanTranslate_skip (printQChars_no_t v)]
  rw [scanTranslate_cons_none (matchTranslateAt_head ')' _ (by decide))]

theorem scanRotate_sPart (v : ℚ) (rest : List Char) :
    scanRotate (sPart v ++ rest) = scanRotate rest := by
  have hshape : sPart v ++ rest =
      's' :: 'c' :: 'a' :: 'l' :: 'e' :: '(' ::
        (printQChars v ++ ')' :: rest) := by
    simp [sPart, litScale]
  rw [hshape]
  rw [scanRotate_cons_none (matchRotateAt_head 's' _ (by decide))]
  rw [scanRotate_cons_none (matchRotateAt_head 'c' _ (by decide))]
  rw [scanRotate_cons_none (matchRotateAt_head 'a' _ (by decide))]
  rw [scanRotate_cons_none (matchRotateAt_head 'l' _ (by decide))]
  rw [scanRotate_cons_none (matchRotateAt_head 'e' _ (by decide))]
  rw [scanRotate_cons_none (matchRotateAt_head '(' _ (by decide))]
  rw [scanRotate_skip (printQChars_no_r v)]
  rw [scanRotate_cons_none (matchRotateAt_head ')' _ (by decide))]

theorem scanTranslate_sPart2 (sx sy : ℚ) (rest : List Char) :
    scanTranslate (sPart2 sx sy ++ rest) = scanTranslate rest := by
  have hshape : sPart2 sx sy ++ rest =
      's' :: 'c' :: 'a' :: 'l' :: 'e' :: '(' ::
        (printQChars sx ++ ',' :: ' ' :: (printQChars sy ++ ')' :: rest)) := by
    simp [sPart2, litScale]
  rw [hshape]
  rw [scanTranslate_cons_none (matchTranslateAt_head 's' _ (by decide))]
  rw [scanTranslate_cons_none (matchTranslateAt_head 'c' _ (by decide))]
  rw [scanTranslate_cons_none (matchTranslateAt_head 'a' _ (by decide))]
  rw [scanTranslate_cons_none (matchTranslateAt_head 'l' _ (by decide))]
  rw [scanTranslate_cons_none (matchTranslateAt_head 'e' _ (by decide))]
  rw [scanTranslate_cons_none (matchTranslateAt_head '(' _ (by decide))]
  rw [scanTranslate_skip (printQChars_no_t sx)]
  rw [scanTranslate_cons_none (matchTranslateAt_head ',' _ (by decide))]
  rw [scanTranslate_cons_none (matchTranslateAt_head ' ' _ (by decide))]
  rw [scanTranslate_skip (printQChars_no_t sy)]
  rw [scanTranslate_cons_none (matchTranslateAt_head ')' _ (by decide))]

theorem scanRotate_sPart2 (sx sy : ℚ) (rest : List Char) :
    scanRotate (sPart2 sx sy ++ rest) = scanRotate rest := by
  have hshape : sPart2 sx sy ++ rest =
      's' :: 'c' :: 'a' :: 'l' :: 'e' :: '(' ::
        (printQChars sx ++ ',' :: ' ' :: (printQChars sy ++ ')' :: rest)) := by
    simp [sPart2, litScale]
  rw [hshape]
  rw [scanRotate_cons_none (matchRotateAt_head 's' _ (by decide))]
  rw [scanRotate_cons_none (matchRotateAt_head 'c' _ (by decide))]
  rw [scanRotate_cons_none (matchRotateAt_head 'a' _ (by decide))]
  rw [scanRotate_cons_none (matchRotateAt_head 'l' _ (by decide))]
  rw [scanRotate_cons_none (matchRotateAt_head 'e' _ (by decide))]
  rw [scanRotate_cons_none (matchRotateAt_head '(' _ (by decide))]
  rw [scanRotate_skip (printQChars_no_r sx)]
  rw [scanRotate_cons_none (matchRotateAt_head ',' _ (by decide))]
  rw [scanRotate_cons_none (matchRotateAt_head ' ' _ (by decide))]
  rw [scanRotate_skip (printQChars_no_r sy)]
  rw [scanRotate_cons_none (matchRotateAt_head ')' _ (by decide))]

theorem scanScale_sPart2T (sx sy : ℚ) (rest : List Char) :
    scanScale (sPart2 sx sy ++ rest) = scanScale rest := by
  have hm : matchScaleAt (sPart2 sx sy ++ rest) = none :=
    matchScale_sPart2 sx sy rest
  have hshape : sPart2 sx sy ++ rest =
      's' :: 'c' :: 'a' :: 'l' :: 'e' :: '(' ::
        (printQChars sx ++ ',' :: ' ' :: (printQChars sy ++ ')' :: rest)) := by
    simp [sPart2, litScale]
  rw [hshape] at hm ⊢
  rw [scanScale_cons_none hm]
  rw [scanScale_cons_none (matchScaleAt_head 'c' _ (by decide))]
  rw [scanScale_cons_none (matchScaleAt_head 'a' _ (by decide))]
  rw [scanScale_cons_none (matchScaleAt_head 'l' _ (by decide))]
  rw [scanScale_cons_none (matchScaleAt_head 'e' _ (by decide))]
  rw [scanScale_cons_none (matchScaleAt_head '(' _ (by decide))]
  rw [scanScale_skip (printQChars_no_s sx)]
  rw [scanScale_cons_none (matchScaleAt_head ',' _ (by decide))]
  rw [scanScale_cons_none (matchScaleAt_head ' ' _ (by decide))]
  rw [scanScale_skip (printQChars_no_s sy)]
  rw [scanScale_cons_none (matchScaleAt_head ')' _ (by decide))]

/-! ## The transform-list grammar on canonical components -/

theorem numStop_cons {c : Char} (h1 : c.isDigit = false) (h2 : c ≠ '.')
    (w : List Char) : NumStop (c :: w) := by
  intro d hd
  rw [List.head?_cons] at hd
  injection hd with hd
  subst hd
  exact ⟨h1, h2⟩

theorem parseArgsAux_one_step (fu : ℕ) (l : List Char) :
    parseArgsAux (fu + 1) l =
      (match parseNum (l.dropWhile wspChar) with
      | none => none
      | some (q, r) =>
        let r1 := r.dropWhile cwspChar
        if r1.head? = some ')' then some ([q], r1.tail)
        else
          match parseArgsAux fu r1 with
          | none => none
          | some (qs, rr) => some (q :: qs, rr)) := rfl

theorem parseArgsAux_step (fu : ℕ) (l : List Char) (q : ℚ) (r : List Char)
    (hp : parseNum (l.dropWhile wspChar) = some (q, r)) :
    parseArgsAux (fu + 1) l =
      if (r.dropWhile cwspChar).head? = some ')' then
        some ([q], (r.dropWhile cwspChar).tail)
      else
        match parseArgsAux fu (r.dropWhile cwspChar) with
        | none => none
        | some (qs, rr) => some (q :: qs, rr) := by
  rw [parseArgsAux_one_step, hp]

theorem parseArgs_one (v : ℚ) (hv : decExp v.den ≠ none) (fu : ℕ)
    (z : List Char) :
    parseArgsAux (fu + 1) (printQChars v ++ ')' :: z) = some ([v], z) := by
  have hdw0 : (printQChars v ++ ')' :: z).dropWhile wspChar =
      printQChars v ++ ')' :: z :=
    dropWhile_printQ (fun c hc => numChar_not_wsp hc) v _
  have hpn : parseNum ((printQChars v ++ ')' :: z).dropWhile wspChar) =
      some (v, ')' :: z) := by
    rw [hdw0]
    exact parseNum_printQChars v hv _ (numStop_cons (by decide) (by decide) _)
  rw [parseArgsAux_step fu _ v _ hpn]
  have hdw1 : (')' :: z).dropWhile cwspChar = ')' :: z := by
    simp [List.dropWhile_cons, cwspChar]
  rw [hdw1]
  rw [if_pos (by rw [List.head?_cons])]
  rw [List.tail_cons]

theorem parseArgs_two (x y : ℚ) (hx : decExp x.den ≠ none)
    (hy : decExp y.den ≠ none) (fu : ℕ) (z : List Char) :
    parseArgsAux (fu + 1 + 1)
      (printQChars x ++ ',' :: ' ' :: (printQChars y ++ ')' :: z)) =
      some ([x, y], z) := by
  have hdw0 : (printQChars x ++ ',' :: ' ' ::
      (printQChars y ++ ')' :: z)).dropWhile wspChar =
      printQChars x ++ ',' :: ' ' :: (printQChars y ++ ')' :: z) :=
    dropWhile_printQ (fun c hc => numChar_not_wsp hc) x _
  have hpn : parseNum ((printQChars x ++ ',' :: ' ' ::
      (printQChars y ++ ')' :: z)).dropWhile wspChar) =
      some (x, ',' :: ' ' :: (printQChars y ++ ')' :: z)) := by
    rw [hdw0]
    exact parseNum_printQChars x hx _ (numStop_cons (by decide) (by decide) _)
  rw [parseArgsAux_step (fu + 1) _ x _ hpn]
  have hdw1 : (',' :: ' ' :: (printQChars y ++ ')' :: z)).dropWhile cwspChar =
      printQChars y ++ ')' :: z := by
    rw [List.dropWhile_cons, if_pos (by decide), List.dropWhile_cons,
      if_pos (by decide)]
    exact dropWhile_printQ (fun c hc => numChar_not_cwsp hc) y _
  rw [hdw1]
  rw [if_neg (fun hh => printQ_head_ne_rpar y hh)]
  rw [parseArgs_one y hy fu z]

theorem parseArgs_three (a b c : ℚ) (ha : decExp a.den ≠ none)
    (hb : decExp b.den ≠ none) (hc : decExp c.den ≠ none) (fu : ℕ)
    (z : List Char) :
    parseArgsAux (fu + 1 + 1 + 1)
      (printQChars a ++ ',' :: ' ' :: (printQChars b ++ ',' :: ' ' ::
        (printQChars c ++ ')' :: z))) =
      some ([a, b, c], z) := by
  have hdw0 : (printQChars a ++ ',' :: ' ' :: (printQChars b ++ ',' :: ' ' ::
      (printQChars c ++ ')' :: z))).dropWhile wspChar =
      printQChars a ++ ',' :: ' ' :: (printQChars b ++ ',' :: ' ' ::
        (printQChars c ++ ')' :: z)) :=
    dropWhile_printQ (fun d hd => numChar_not_wsp hd) a _
  have hpn : parseNum ((printQChars a ++ ',' :: ' ' :: (printQChars b ++
      ',' :: ' ' :: (printQChars c ++ ')' :: z))).dropWhile wspChar) =
      some (a, ',' :: ' ' :: (printQChars b ++ ',' :: ' ' ::
        (printQChars c ++ ')' :: z))) := by
    rw [hdw0]
    exact parseNum_printQChars a ha _ (numStop_cons (by decide) (by decide) _)
  rw [parseArgsAux_step (fu + 1 + 1) _ a _ hpn]
  have hdw1 : (',' :: ' ' :: (printQChars b ++ ',' :: ' ' ::
      (printQChars c ++ ')' :: z))).dropWhile cwspChar =
      printQChars b ++ ',' :: ' ' :: (printQChars c ++ ')' :: z) := by
    rw [List.dropWhile_cons, if_pos (by decide), List.dropWhile_cons,
      if_pos (by decide)]
    exact dropWhile_printQ (fun d hd => numChar_not_cwsp hd) b _
  rw [hdw1]
  rw [if_neg (fun hh => printQ_head_ne_rpar b hh)]
  rw [parseArgs_two b c hb hc fu z]

theorem parseOneOp_tPart (x y : ℚ) (hx : decExp x.den ≠ none)
    (hy : decExp y.den ≠ none) :
    ∀ z, parseOneOp (tPart x y ++ z) = some (.translate x y, z) := by
  intro z
  have hshape : tPart x y ++ z = litTranslate ++
      (printQChars x ++ ',' :: ' ' :: (printQChars y ++ ')' :: z)) := by
    simp [tPart]
  rw [hshape]
  have hpre : litTranslate.isPrefixOf (litTranslate ++
      (printQChars x ++ ',' :: ' ' :: (printQChars y ++ ')' :: z))) = true :=
    isPrefixOf_ex.mpr ⟨_, rfl⟩
  simp only [parseOneOp]
  rw [if_pos hpre, List.drop_left]
  rw [show (4 : ℕ) = 2 + 1 + 1 from rfl]
  rw [parseArgs_two x y hx hy 2 z]

theorem parseOneOp_rPart (a cx cy : ℚ) (ha : decExp a.den ≠ none)
    (hcx : decExp cx.den ≠ none) (hcy : decExp cy.den ≠ none) :
    ∀ z, parseOneOp (rPart a cx cy ++ z) = some (.rotate a cx cy, z) := by
  intro z
  have hshape : rPart a cx cy ++ z = litRotate ++
      (printQChars a ++ ',' :: ' ' :: (printQChars cx ++ ',' :: ' ' ::
        (printQChars cy ++ ')' :: z))) := by
    simp [rPart]
  rw [hshape]
  have hconsR : litRotate ++ (printQChars a ++ ',' :: ' ' :: (printQChars cx ++
      ',' :: ' ' :: (printQChars cy ++ ')' :: z))) =
      'r' :: ('o' :: 't' :: 'a' :: 't' :: 'e' :: '(' ::
        (printQChars a ++ ',' :: ' ' :: (printQChars cx ++ ',' :: ' ' ::
          (printQChars cy ++ ')' :: z)))) := by
    simp [litRotate]
  have hnt : litTranslate.isPrefixOf (litRotate ++ (printQChars a ++
      ',' :: ' ' :: (printQChars cx ++ ',' :: ' ' ::
        (printQChars cy ++ ')' :: z)))) = false := by
    rw [hconsR]
    exact isPrefixOf_head_ne (by decide)
  have hpre : litRotate.isPrefixOf (litRotate ++ (printQChars a ++
      ',' :: ' ' :: (printQChars cx ++ ',' :: ' ' ::
        (printQChars cy ++ ')' :: z)))) = true :=
    isPrefixOf_ex.mpr ⟨_, rfl⟩
  simp only [parseOneOp]
  rw [if_neg (by rw [hnt]; exact Bool.false_ne_true)]
  rw [if_pos hpre, List.drop_left]
  rw [show (4 : ℕ) = 1 + 1 + 1 + 1 from rfl]
  rw [parseArgs_three a cx cy ha hcx hcy 1 z]

theorem parseOneOp_sPart (v : ℚ) (hv : decExp v.den ≠ none) :
    ∀ z, parseOneOp (sPart v ++ z) = some (.scale v v, z) := by
  intro z
  have hshape : sPart v ++ z = litScale ++ (printQChars v ++ ')' :: z) := by
    simp [sPart]
  rw [hshape]
  have hconsS : litScale ++ (printQChars v ++ ')' :: z) =
      's' :: ('c' :: 'a' :: 'l' :: 'e' :: '(' ::
        (printQChars v ++ ')' :: z)) := by
    simp [litScale]
  have hnt : litTranslate.isPrefixOf
      (litScale ++ (printQChars v ++ ')' :: z)) = false := by
    rw [hconsS]
    exact isPrefixOf_head_ne (by decide)
  have hnr : litRotate.isPrefixOf
      (litScale ++ (printQChars v ++ ')' :: z)) = false := by
    rw [hconsS]
    exact isPrefixOf_head_ne (by decide)
  have hpre : litScale.isPrefixOf
      (litScale ++ (printQChars v ++ ')' :: z)) = true :=
    isPrefixOf_ex.mpr ⟨_, rfl⟩
  simp only [parseOneOp]
  rw [if_neg (by rw [hnt]; exact Bool.false_ne_true)]
  rw [if_neg (by rw [hnr]; exact Bool.false_ne_true)]
  rw [if_pos hpre, List.drop_left]
  rw [show (4 : ℕ) = 3 + 1 from rfl]
  rw [parseArgs_one v hv 3 z]

theorem partOk_tPart (x y : ℚ) (hx : decExp x.den ≠ none)
    (hy : decExp y.den ≠ none) : PartOk (tPart x y) (.translate x y) := by
  refine ⟨by simp [tPart, litTranslate], ?_, parseOneOp_tPart x y hx hy⟩
  intro c hc
  rw [show (tPart x y).head? = some 't' from rfl] at hc
  injection hc with hc
  subst hc
  decide

theorem partOk_rPart (a cx cy : ℚ) (ha : decExp a.den ≠ none)
    (hcx : decExp cx.den ≠ none) (hcy : decExp cy.den ≠ none) :
    PartOk (rPart a cx cy) (.rotate a cx cy) := by
  refine ⟨by simp [rPart, litRotate], ?_, parseOneOp_rPart a cx cy ha hcx hcy⟩
  intro c hc
  rw [show (rPart a cx cy).head? = some 'r' from rfl] at hc
  injection hc with hc
  subst hc
  decide

theorem partOk_sPart (v : ℚ) (hv : decExp v.den ≠ none) :
    PartOk (sPart v) (.scale v v) := by
  refine ⟨by simp [sPart, litScale], ?_, parseOneOp_sPart v hv⟩
  intro c hc
  rw [show (sPart v).head? = some 's' from rfl] at hc
  injection hc with hc
  subst hc
  decide

theorem parseOpsF_nil (fu : ℕ) : parseOpsF (fu + 1) [] = some [] := rfl

theorem parseOpsF_wspD (fu : ℕ) (l : List Char) :
    parseOpsF (fu + 1) (' ' :: l) = parseOpsF (fu + 1) l := by
  simp only [parseOpsF]
  rw [show (' ' :: l).dropWhile wspChar = l.dropWhile wspChar from by
    simp [List.dropWhile_cons, wspChar]]

theorem parseOpsF_cons_part {fu : ℕ} {part rest : List Char} {op : TOp}
    (hok : PartOk part op) :
    parseOpsF (fu + 1) (part ++ rest) =
      (parseOpsF fu rest).map (fun ops => op :: ops) := by
  obtain ⟨hne, hhd, hone⟩ := hok
  cases part with
  | nil => exact absurd rfl hne
  | cons c t =>
    have hw : wspChar c = false := hhd c (by rw [List.head?_cons])
    have ho : parseOneOp (c :: (t ++ rest)) = some (op, rest) := by
      have := hone rest
      rwa [List.cons_append] at this
    simp only [parseOpsF, List.cons_append]
    rw [show (c :: (t ++ rest)).dropWhile wspChar = c :: (t ++ rest) from by
      simp [List.dropWhile_cons, hw]]
    rw [show (c :: (t ++ rest)).isEmpty = false from rfl]
    rw [if_neg Bool.false_ne_true]
    rw [ho]
    show (match parseOpsF fu rest with
      | none => none
      | some ops => some (op :: ops)) =
      (parseOpsF fu rest).map (fun ops => op :: ops)
    cases parseOpsF fu rest <;> rfl

theorem parseOpsF_joinSp {parts : List (List Char)} {ops : List TOp}
    (h : List.Forall₂ PartOk parts ops) :
    ∀ fu, parts.length < fu → parseOpsF fu (joinSp parts) = some ops := by
  induction h with
  | nil =>
    intro fu hfu
    cases fu with
    | zero => omega
    | succ fu => exact parseOpsF_nil fu
  | cons hpo hrest ih =>
    rename_i p op ps os
    intro fu hfu
    cases fu with
    | zero => simp at hfu
    | succ fu =>
      cases ps with
      | nil =>
        cases hrest
        have hstep := @parseOpsF_cons_part fu p [] _ hpo
        rw [List.append_nil] at hstep
        rw [show joinSp [p] = p from rfl, hstep]
        cases fu with
        | zero => simp at hfu
        | succ g => rw [parseOpsF_nil g]; rfl
      | cons q qs =>
        rw [show joinSp (p :: q :: qs) = p ++ ' ' :: joinSp (q :: qs) from rfl]
        rw [parseOpsF_cons_part hpo]
        cases fu with
        | zero => simp at hfu
        | succ g =>
          rw [parseOpsF_wspD g (joinSp (q :: qs))]
          rw [ih (g + 1) (by simp at hfu ⊢; omega)]
          rfl

theorem forall₂_partOk_ne {parts : List (List Char)} {ops : List TOp}
    (h : List.Forall₂ PartOk parts ops) : ∀ p ∈ parts, p ≠ [] := by
  induction h with
  | nil => intro p hp; simp at hp
  | cons hpo _ ih =>
    intro p hp
    rcases List.mem_cons.mp hp with rfl | hp
    · exact hpo.1
    · exact ih p hp

theorem joinSp_length_ge {parts : List (List Char)}
    (h : ∀ p ∈ parts, p ≠ []) : parts.length ≤ (joinSp parts).length := by
  induction parts with
  | nil => simp [joinSp]
  | cons p ps ih =>
    cases ps with
    | nil =>
      have hp : 1 ≤ p.length := List.length_pos.mpr (h p (by simp))
      simpa [joinSp] using hp
    | cons q qs =>
      have hih := ih (fun x hx => h x (List.mem_cons_of_mem p hx))
      have hp : 1 ≤ p.length := List.length_pos.mpr (h p (by simp))
      rw [show joinSp (p :: q :: qs) = p ++ ' ' :: joinSp (q :: qs) from rfl]
      simp only [List.length_append, List.length_cons] at hih ⊢
      omega

theorem svgOps_joinSp {parts : List (List Char)} {ops : List TOp}
    (h : List.Forall₂ PartOk parts ops) :
    svgOps ⟨joinSp parts⟩ = some ops := by
  rw [svgOps]
  exact parseOpsF_joinSp h _
    (Nat.lt_succ_of_le (joinSp_length_ge (forall₂_partOk_ne h)))

/-! ## Matrix identities for the effective-transform semantics -/

theorem matMul_id_left (m : Affine) : matMul matId m = m := by
  cases m
  simp [matMul, matId]

theorem matMul_id_right (m : Affine) : matMul m matId = m := by
  cases m
  simp [matMul, matId]

theorem opSem_translate_zero (trig : ℚ → ℚ × ℚ) :
    opSem trig (.translate 0 0) = matId := rfl

theorem opSem_scale_one (trig : ℚ → ℚ × ℚ) :
    opSem trig (.scale 1 1) = matId := by
  show scaleMat 1 1 = matId
  rfl

theorem opSem_rotate_zero (trig : ℚ → ℚ × ℚ) (h0 : trig 0 = (1, 0)) (c d : ℚ) :
    opSem trig (.rotate 0 c d) = matId := by
  show matMul (translateMat c d)
      (matMul (rotMat (trig 0).1 (trig 0).2) (translateMat (-c) (-d))) = matId
  rw [h0]
  simp only [matMul, translateMat, rotMat, matId, Affine.mk.injEq]
  refine ⟨by ring, by ring, by ring, by ring, by ring, by ring⟩

/-! ## The serialized transform string as a canonical string -/

theorem stringDataInj {s t : String} (h : s.data = t.data) : s = t := by
  cases s
  cases t
  exact congrArg String.mk h

theorem printQ_data (q : ℚ) : (printQ q).data = printQChars q := rfl

theorem canonStr_data (t : Option (ℚ × ℚ)) (r : Option (ℚ × ℚ × ℚ))
    (sc : Option ℚ) : (canonStr t r sc).data = canonChars t r sc := rfl

theorem transformString_eq (st : TransformState) (cx cy : ℚ) :
    transformString st cx cy =
      canonStr (some (st.x, st.y)) (some (st.rotate, cx, cy)) (some st.scale) := by
  apply stringDataInj
  rw [transformString]
  simp only [strData_append, printQ_data, canonStr_data]
  simp [canonChars, joinSp, tPart, rPart, sPart, litTranslate, litRotate,
    litScale]

/-! ## Parsing canonical transform strings -/

theorem parseTransformChars_eq (cs : List Char) :
    parseTransformChars cs =
      (match (match scanTranslate cs with
              | some p => parseFloatQ p.1
              | none => some 0),
             (match scanTranslate cs with
              | some p => parseFloatQ p.2
              | none => some 0),
             (match scanRotate cs with
              | some a => parseFloatQ a
              | none => some 0),
             (match scanScale cs with
              | some a => parseFloatQ a
              | none => some 1) with
       | some xv, some yv, some rv, some sv => some ⟨xv, yv, sv, rv⟩
       | _, _, _, _ => none) := rfl

theorem parseTransform_canonStr (t : Option (ℚ × ℚ)) (r : Option (ℚ × ℚ × ℚ))
    (sc : Option ℚ) :
    parseTransform (canonStr t r sc) = parseTransformChars (canonChars t r sc) :=
  rfl

theorem parseTransform_canon (t : Option (ℚ × ℚ)) (r : Option (ℚ × ℚ × ℚ))
    (sc : Option ℚ)
    (hT : ∀ p, t = some p → decExp p.1.den ≠ none ∧ decExp p.2.den ≠ none)
    (hR : ∀ p, r = some p → decExp p.1.den ≠ none)
    (hS : ∀ v, sc = some v → decExp v.den ≠ none) :
    parseTransform (canonStr t r sc) = some (canonState t r sc) := by
  rcases t with _ | ⟨x, y⟩ <;> rcases r with _ | ⟨a, px, py⟩ <;>
    rcases sc with _ | v
  · rfl
  · -- scale only
    obtain hv := hS v rfl
    have hcs : canonChars none none (some v) = sPart v ++ [] := by
      simp [canonChars, joinSp]
    have hT1 : scanTranslate (canonChars none none (some v)) = none := by
      rw [hcs, scanTranslate_sPart]
      rfl
    have hR1 : scanRotate (canonChars none none (some v)) = none := by
      rw [hcs, scanRotate_sPart]
      rfl
    have hS1 : scanScale (canonChars none none (some v)) =
        some (printQChars v) := by
      rw [hcs]
      exact scanScale_here (matchScale_sPart v [])
    rw [parseTransform_canonStr, parseTransformChars_eq, hT1, hR1, hS1]
    simp only [parseFloatQ_printQChars v hv]
    rfl
  · -- rotate only
    obtain ha := hR (a, px, py) rfl
    have hcs : canonChars none (some (a, px, py)) none =
        rPart a px py ++ [] := by
      simp [canonChars, joinSp]
    have hT1 : scanTranslate (canonChars none (some (a, px, py)) none) =
        none := by
      rw [hcs, scanTranslate_rPart]
      rfl
    have hR1 : scanRotate (canonChars none (some (a, px, py)) none) =
        some (printQChars a) := by
      rw [hcs]
      exact scanRotate_here (matchRotate_rPart a px py [])
    have hS1 : scanScale (canonChars none (some (a, px, py)) none) = none := by
      rw [hcs, scanScale_rPart]
      rfl
    rw [parseTransform_canonStr, parseTransformChars_eq, hT1, hR1, hS1]
    simp only [parseFloatQ_printQChars a ha]
    rfl
  · -- rotate and scale
    obtain ha := hR (a, px, py) rfl
    obtain hv := hS v rfl
    have hcs : canonChars none (some (a, px, py)) (some v) =
        rPart a px py ++ ' ' :: (sPart v ++ []) := by
      simp [canonChars, joinSp]
    have hT1 : scanTranslate (canonChars none (some (a, px, py)) (some v)) =
        none := by
      rw [hcs, scanTranslate_rPart, scanTranslate_wsp, scanTranslate_sPart]
      rfl
    have hR1 : scanRotate (canonChars none (some (a, px, py)) (some v)) =
        some (printQChars a) := by
      rw [hcs]
      exact scanRotate_here (matchRotate_rPart a px py _)
    have hS1 : scanScale (canonChars none (some (a, px, py)) (some v)) =
        some (printQChars v) := by
      rw [hcs, scanScale_rPart, scanScale_wsp]
      exact scanScale_here (matchScale_sPart v [])
    rw [parseTransform_canonStr, parseTransformChars_eq, hT1, hR1, hS1]
    simp only [parseFloatQ_printQChars a ha, parseFloatQ_printQChars v hv]
    rfl
  · -- translate only
    obtain ⟨hx, hy⟩ := hT (x, y) rfl
    have hcs : canonChars (some (x, y)) none none = tPart x y ++ [] := by
      simp [canonChars, joinSp]
    have hT1 : scanTranslate (canonChars (some (x, y)) none none) =
        some (printQChars x, printQChars y) := by
      rw [hcs]
      exact scanTranslate_here (matchTranslate_tPart x y [])
    have hR1 : scanRotate (canonChars (some (x, y)) none none) = none := by
      rw [hcs, scanRotate_tPart]
      rfl
    have hS1 : scanScale (canonChars (some (x, y)) none none) = none := by
      rw [hcs, scanScale_tPart]
      rfl
    rw [parseTransform_canonStr, parseTransformChars_eq, hT1, hR1, hS1]
    simp only [parseFloatQ_printQChars x hx, parseFloatQ_printQChars y hy]
    rfl
  · -- translate and scale
    obtain ⟨hx, hy⟩ := hT (x, y) rfl
    obtain hv := hS v rfl
    have hcs : canonChars (some (x, y)) none (some v) =
        tPart x y ++ ' ' :: (sPart v ++ []) := by
      simp [canonChars, joinSp]
    have hT1 : scanTranslate (canonChars (some (x, y)) none (some v)) =
        some (printQChars x, printQChars y) := by
      rw [hcs]
      exact scanTranslate_here (matchTranslate_tPart x y _)
    have hR1 : scanRotate (canonChars (some (x, y)) none (some v)) = none := by
      rw [hcs, scanRotate_tPart, scanRotate_wsp, scanRotate_sPart]
      rfl
    have hS1 : scanScale (canonChars (some (x, y)) none (some v)) =
        some (printQChars v) := by
      rw [hcs, scanScale_tPart, scanScale_wsp]
      exact scanScale_here (matchScale_sPart v [])
    rw [parseTransform_canonStr, parseTransformChars_eq, hT1, hR1, hS1]
    simp only [parseFloatQ_printQChars x hx, parseFloatQ_printQChars y hy,
      parseFloatQ_printQChars v hv]
    rfl
  · -- translate and rotate
    obtain ⟨hx, hy⟩ := hT (x, y) rfl
    obtain ha := hR (a, px, py) rfl
    have hcs : canonChars (some (x, y)) (some (a, px, py)) none =
        tPart x y ++ ' ' :: (rPart a px py ++ []) := by
      simp [canonChars, joinSp]
    have hT1 : scanTranslate (canonChars (some (x, y)) (some (a, px, py))
        none) = some (printQChars x, printQChars y) := by
      rw [hcs]
      exact scanTranslate_here (matchTranslate_tPart x y _)
    have hR1 : scanRotate (canonChars (some (x, y)) (some (a, px, py)) none) =
        some (printQChars a) := by
      rw [hcs, scanRotate_tPart, scanRotate_wsp]
      exact scanRotate_here (matchRotate_rPart a px py [])
    have hS1 : scanScale (canonChars (some (x, y)) (some (a, px, py)) none) =
        none := by
      rw [hcs, scanScale_tPart, scanScale_wsp, scanScale_rPart]
      rfl
    rw [parseTransform_canonStr, parseTransformChars_eq, hT1, hR1, hS1]
    simp only [parseFloatQ_printQChars x hx, parseFloatQ_printQChars y hy,
      parseFloatQ_printQChars a ha]
    rfl
  · -- all three
    obtain ⟨hx, hy⟩ := hT (x, y) rfl
    obtain ha := hR (a, px, py) rfl
    obtain hv := hS v rfl
    have hcs : canonChars (some (x, y)) (some (a, px, py)) (some v) =
        tPart x y ++ ' ' :: (rPart a px py ++ ' ' :: (sPart v ++ [])) := by
      simp [canonChars, joinSp]
    have hT1 : scanTranslate (canonChars (some (x, y)) (some (a, px, py))
        (some v)) = some (printQChars x, printQChars y) := by
      rw [hcs]
      exact scanTranslate_here (matchTranslate_tPart x y _)
    have hR1 : scanRotate (canonChars (some (x, y)) (some (a, px, py))
        (some v)) = some (printQChars a) := by
      rw [hcs, scanRotate_tPart, scanRotate_wsp]
      exact scanRotate_here (matchRotate_rPart a px py _)
    have hS1 : scanScale (canonChars (some (x, y)) (some (a, px, py))
        (some v)) = some (printQChars v) := by
      rw [hcs, scanScale_tPart, scanScale_wsp, scanScale_rPart, scanScale_wsp]
      exact scanScale_here (matchScale_sPart v [])
    rw [parseTransform_canonStr, parseTransformChars_eq, hT1, hR1, hS1]
    simp only [parseFloatQ_printQChars x hx, parseFloatQ_printQChars y hy,
      parseFloatQ_printQChars a ha, parseFloatQ_printQChars v hv]
    rfl

theorem decExp_zero : decExp (0 : ℚ).den ≠ none := by
  with_unfolding_all decide

theorem decExp_one : decExp (1 : ℚ).den ≠ none := by
  with_unfolding_all decide

/-- C10: the claim's scale clause is false as stated: in
`"scale(3, 4) scale(2)"` the two-argument scale is present, but the
single-argument pattern matches the later `scale(2)`, so the parsed scale is
2 rather than the identity default 1. -/
theorem twoArgScale_counterexample : ¬ TwoArgScaleIgnored := by
  intro h
  have hc : ContainsTwoArgScale "scale(3, 4) scale(2)" :=
    ⟨[], ['3'], ['4'], [' ', 's', 'c', 'a', 'l', 'e', '(', '2', ')'],
      by decide, by decide, by decide, by decide, by decide⟩
  have hp : parseTransform "scale(3, 4) scale(2)" = some ⟨0, 0, 2, 0⟩ := by
    with_unfolding_all decide
  have h2 : (2 : ℚ) = 1 := h "scale(3, 4) scale(2)" ⟨0, 0, 2, 0⟩ hc hp
  norm_num at h2

/-- C10 (amended): the editor's transform parser captures only the
single-argument `scale(s)` form and only the angle of a rotation.  A lone
two-argument `scale(sx, sy)` parses with every identity default; a
`rotate(a, cx, cy)` parses to the angle alone with the pivot arguments
discarded; and whenever the single-argument scale pattern matches nowhere in
the string, the parsed scale is the identity default 1. -/
theorem scale_capture_contract (sx sy a cx cy : ℚ)
    (ha : decExp a.den ≠ none) :
    parseTransform ⟨sPart2 sx sy⟩ = some ⟨0, 0, 1, 0⟩ ∧
    parseTransform ⟨rPart a cx cy⟩ = some ⟨0, 0, 1, a⟩ ∧
    (∀ (cs : List Char) (st : TransformState), scanScale cs = none →
      parseTransformChars cs = some st → st.scale = 1) := by
  refine ⟨?_, ?_, ?_⟩
  · have hT1 : scanTranslate (sPart2 sx sy) = none := by
      have h1 := scanTranslate_sPart2 sx sy []
      rw [List.append_nil] at h1
      exact h1
    have hR1 : scanRotate (sPart2 sx sy) = none := by
      have h1 := scanRotate_sPart2 sx sy []
      rw [List.append_nil] at h1
      exact h1
    have hS1 : scanScale (sPart2 sx sy) = none := by
      have h1 := scanScale_sPart2T sx sy []
      rw [List.append_nil] at h1
      exact h1
    rw [show parseTransform ⟨sPart2 sx sy⟩ =
        parseTransformChars (sPart2 sx sy) from rfl,
      parseTransformChars_eq, hT1, hR1, hS1]
  · have hT1 : scanTranslate (rPart a cx cy) = none := by
      have h1 := scanTranslate_rPart a cx cy []
      rw [List.append_nil] at h1
      exact h1
    have hR1 : scanRotate (rPart a cx cy) = some (printQChars a) := by
      have h1 := matchRotate_rPart a cx cy []
      rw [List.append_nil] at h1
      exact scanRotate_here h1
    have hS1 : scanScale (rPart a cx cy) = none := by
      have h1 := scanScale_rPart a cx cy []
      rw [List.append_nil] at h1
      exact h1
    rw [show parseTransform ⟨rPart a cx cy⟩ =
        parseTransformChars (rPart a cx cy) from rfl,
      parseTransformChars_eq, hT1, hR1, hS1]
    simp only [parseFloatQ_printQChars a ha]
  · intro cs st hscan hp
    rw [parseTransformChars_eq, hscan] at hp
    rcases hT2 : scanTranslate cs with _ | p <;>
      rcases hR2 : scanRotate cs with _ | ra <;> rw [hT2, hR2] at hp
    · simp at hp
      rw [← hp]
    · replace hp : (match (some (0 : ℚ)), (some (0 : ℚ)), parseFloatQ ra,
          (some (1 : ℚ)) with
        | some xv, some yv, some rv, some sv =>
          some (⟨xv, yv, sv, rv⟩ : TransformState)
        | _, _, _, _ => none) = some st := hp
      rcases hra : parseFloatQ ra with _ | rv <;> rw [hra] at hp
      · simp at hp
      · simp at hp
        rw [← hp]
    · replace hp : (match parseFloatQ p.1, parseFloatQ p.2, (some (0 : ℚ)),
          (some (1 : ℚ)) with
        | some xv, some yv, some rv, some sv =>
          some (⟨xv, yv, sv, rv⟩ : TransformState)
        | _, _, _, _ => none) = some st := hp
      rcases hx1 : parseFloatQ p.1 with _ | xv <;> rw [hx1] at hp
      · simp at hp
      rcases hy1 : parseFloatQ p.2 with _ | yv <;> rw [hy1] at hp
      · simp at hp
      simp at hp
      rw [← hp]
    · replace hp : (match parseFloatQ p.1, parseFloatQ p.2, parseFloatQ ra,
          (some (1 : ℚ)) with
        | some xv, some yv, some rv, some sv =>
          some (⟨xv, yv, sv, rv⟩ : TransformState)
        | _, _, _, _ => none) = some st := hp
      rcases hx1 : parseFloatQ p.1 with _ | xv <;> rw [hx1] at hp
      · simp at hp
      rcases hy1 : parseFloatQ p.2 with _ | yv <;> rw [hy1] at hp
      · simp at hp
      rcases hra : parseFloatQ ra with _ | rv <;> rw [hra] at hp
      · simp at hp
      simp at hp
      rw [← hp]

/-- Witness: the second clause of `scale_capture_contract` at concrete
values: `rotate(90, 5, 6)` parses to angle 90 with the pivot discarded. -/
theorem scale_capture_contract_witness :
    parseTransform ⟨rPart 90 5 6⟩ = some ⟨0, 0, 1, 90⟩ :=
  (scale_capture_contract 3 4 90 5 6 (by with_unfolding_all decide)).2.1

/-- C1 as stated fails: `"scale(2) translate(10, 20)"` parses to the state
`{x := 10, y := 20, scale := 2, rotate := 0}`, but re-serializing emits the
fixed order translate-rotate-scale, which composes the scale after the
translation instead of before it, a different effective transform. -/
theorem transformRoundTrip_counterexample : ¬ TransformRoundTrips := by
  intro h
  have hops : svgOps "scale(2) translate(10, 20)" =
      some [.scale 2 2, .translate 10 20] := by
    with_unfolding_all decide
  have hp : parseTransform "scale(2) translate(10, 20)" =
      some ⟨10, 20, 2, 0⟩ := by
    with_unfolding_all decide
  have hsame := h "scale(2) translate(10, 20)" [.scale 2 2, .translate 10 20]
    ⟨10, 20, 2, 0⟩ 0 0 hops hp
  have heq := hsame (fun _ => (1, 0)) rfl
  revert heq
  with_unfolding_all decide

/-- C1 (amended): for a transform string holding any subset of translate,
rotate and scale components in the serializer's order, parsing yields the
captured values with identity defaults filling the gaps, and re-serializing
the unmodified state about the pivot `(cx, cy)` preserves the effective
transform provided the rotation component, if present and nonzero, was
already about that pivot (the parser discards rotation pivots, so the
serializer's bounding-box pivot must coincide for the effect to survive;
zero rotations are pivot-independent). -/
theorem transform_roundtrip_canonical (t : Option (ℚ × ℚ))
    (r : Option (ℚ × ℚ × ℚ)) (sc : Option ℚ) (cx cy : ℚ)
    (hT : ∀ p, t = some p → decExp p.1.den ≠ none ∧ decExp p.2.den ≠ none)
    (hR : ∀ p, r = some p → decExp p.1.den ≠ none ∧
      decExp p.2.1.den ≠ none ∧ decExp p.2.2.den ≠ none)
    (hS : ∀ v, sc = some v → decExp v.den ≠ none)
    (hcx : decExp cx.den ≠ none) (hcy : decExp cy.den ≠ none)
    (hpiv : ∀ p, r = some p → p.1 = 0 ∨ (p.2.1 = cx ∧ p.2.2 = cy)) :
    parseTransform (canonStr t r sc) = some (canonState t r sc) ∧
    SameEff (transformString (canonState t r sc) cx cy) (canonStr t r sc) := by
  refine ⟨parseTransform_canon t r sc hT (fun p hp => (hR p hp).1) hS, ?_⟩
  intro trig h0
  rw [transformString_eq]
  rcases t with _ | ⟨x, y⟩ <;> rcases r with _ | ⟨a, px, py⟩ <;>
    rcases sc with _ | v <;>
    simp only [canonState, Option.map_none', Option.map_some',
      Option.getD_none, Option.getD_some]
  · have hser : svgOps (canonStr (some (0, 0)) (some (0, cx, cy)) (some 1)) =
        some [.translate 0 0, .rotate 0 cx cy, .scale 1 1] :=
      svgOps_joinSp (.cons (partOk_tPart 0 0 decExp_zero decExp_zero)
        (.cons (partOk_rPart 0 cx cy decExp_zero hcx hcy)
          (.cons (partOk_sPart 1 decExp_one) .nil)))
    have hin : svgOps (canonStr none none none) = some [] := svgOps_joinSp .nil
    rw [hser, hin]
    simp only [Option.map_some', opsSem, List.foldl, opSem_translate_zero,
      opSem_scale_one, opSem_rotate_zero trig h0, matMul_id_left,
      matMul_id_right]
  · obtain hv := hS v rfl
    have hser : svgOps (canonStr (some (0, 0)) (some (0, cx, cy)) (some v)) =
        some [.translate 0 0, .rotate 0 cx cy, .scale v v] :=
      svgOps_joinSp (.cons (partOk_tPart 0 0 decExp_zero decExp_zero)
        (.cons (partOk_rPart 0 cx cy decExp_zero hcx hcy)
          (.cons (partOk_sPart v hv) .nil)))
    have hin : svgOps (canonStr none none (some v)) = some [.scale v v] :=
      svgOps_joinSp (.cons (partOk_sPart v hv) .nil)
    rw [hser, hin]
    simp only [Option.map_some', opsSem, List.foldl, opSem_translate_zero,
      opSem_scale_one, opSem_rotate_zero trig h0, matMul_id_left,
      matMul_id_right]
  · obtain ⟨ha, hax, hay⟩ := hR (a, px, py) rfl
    have hser : svgOps (canonStr (some (0, 0)) (some (a, cx, cy)) (some 1)) =
        some [.translate 0 0, .rotate a cx cy, .scale 1 1] :=
      svgOps_joinSp (.cons (partOk_tPart 0 0 decExp_zero decExp_zero)
        (.cons (partOk_rPart a cx cy ha hcx hcy)
          (.cons (partOk_sPart 1 decExp_one) .nil)))
    have hin : svgOps (canonStr none (some (a, px, py)) none) =
        some [.rotate a px py] :=
      svgOps_joinSp (.cons (partOk_rPart a px py ha hax hay) .nil)
    rw [hser, hin]
    rcases hpiv (a, px, py) rfl with hp0 | hpe
    · have ha0 : a = 0 := hp0
      subst ha0
      simp only [Option.map_some', opsSem, List.foldl, opSem_translate_zero,
        opSem_scale_one, opSem_rotate_zero trig h0, matMul_id_left,
        matMul_id_right]
    · have hex : px = cx := hpe.1
      have hey : py = cy := hpe.2
      subst hex
      subst hey
      simp only [Option.map_some', opsSem, List.foldl, opSem_translate_zero,
        opSem_scale_one, matMul_id_left, matMul_id_right]
  · obtain ⟨ha, hax, hay⟩ := hR (a, px, py) rfl
    obtain hv := hS v rfl
    have hser : svgOps (canonStr (some (0, 0)) (some (a, cx, cy)) (some v)) =
        some [.translate 0 0, .rotate a cx cy, .scale v v] :=
      svgOps_joinSp (.cons (partOk_tPart 0 0 decExp_zero decExp_zero)
        (.cons (partOk_rPart a cx cy ha hcx hcy)
          (.cons (partOk_sPart v hv) .nil)))
    have hin : svgOps (canonStr none (some (a, px, py)) (some v)) =
        some [.rotate a px py, .scale v v] :=
      svgOps_joinSp (.cons (partOk_rPart a px py ha hax hay)
        (.cons (partOk_sPart v hv) .nil))
    rw [hser, hin]
    rcases hpiv (a, px, py) rfl with hp0 | hpe
    · have ha0 : a = 0 := hp0
      subst ha0
      simp only [Option.map_some', opsSem, List.foldl, opSem_translate_zero,
        opSem_scale_one, opSem_rotate_zero trig h0, matMul_id_left,
        matMul_id_right]
    · have hex : px = cx := hpe.1
      have hey : py = cy := hpe.2
      subst hex
      subst hey
      simp only [Option.map_some', opsSem, List.foldl, opSem_translate_zero,
        opSem_scale_one, matMul_id_left, matMul_id_right]
  · obtain ⟨hx, hy⟩ := hT (x, y) rfl
    have hser : svgOps (canonStr (some (x, y)) (some (0, cx, cy)) (some 1)) =
        some [.translate x y, .rotate 0 cx cy, .scale 1 1] :=
      svgOps_joinSp (.cons (partOk_tPart x y hx hy)
        (.cons (partOk_rPart 0 cx cy decExp_zero hcx hcy)
          (.cons (partOk_sPart 1 decExp_one) .nil)))
    have hin : svgOps (canonStr (some (x, y)) none none) =
        some [.translate x y] :=
      svgOps_joinSp (.cons (partOk_tPart x y hx hy) .nil)
    rw [hser, hin]
    simp only [Option.map_some', opsSem, List.foldl, opSem_translate_zero,
      opSem_scale_one, opSem_rotate_zero trig h0, matMul_id_left,
      matMul_id_right]
  · obtain ⟨hx, hy⟩ := hT (x, y) rfl
    obtain hv := hS v rfl
    have hser : svgOps (canonStr (some (x, y)) (some (0, cx, cy)) (some v)) =
        some [.translate x y, .rotate 0 cx cy, .scale v v] :=
      svgOps_joinSp (.cons (partOk_tPart x y hx hy)
        (.cons (partOk_rPart 0 cx cy decExp_zero hcx hcy)
          (.cons (partOk_sPart v hv) .nil)))
    have hin : svgOps (canonStr (some (x, y)) none (some v)) =
        some [.translate x y, .scale v v] :=
      svgOps_joinSp (.cons (partOk_tPart x y hx hy)
        (.cons (partOk_sPart v hv) .nil))
    rw [hser, hin]
    simp only [Option.map_some', opsSem, List.foldl, opSem_translate_zero,
      opSem_scale_one, opSem_rotate_zero trig h0, matMul_id_left,
      matMul_id_right]
  · obtain ⟨hx, hy⟩ := hT (x, y) rfl
    obtain ⟨ha, hax, hay⟩ := hR (a, px, py) rfl
    have hser : svgOps (canonStr (some (x, y)) (some (a, cx, cy)) (some 1)) =
        some [.translate x y, .rotate a cx cy, .scale 1 1] :=
      svgOps_joinSp (.cons (partOk_tPart x y hx hy)
        (.cons (partOk_rPart a cx cy ha hcx hcy)
          (.cons (partOk_sPart 1 decExp_one) .nil)))
    have hin : svgOps (canonStr (some (x, y)) (some (a, px, py)) none) =
        some [.translate x y, .rotate a px py] :=
      svgOps_joinSp (.cons (partOk_tPart x y hx hy)
        (.cons (partOk_rPart a px py ha hax hay) .nil))
    rw [hser, hin]
    rcases hpiv (a, px, py) rfl with hp0 | hpe
    · have ha0 : a = 0 := hp0
      subst ha0
      simp only [Option.map_some', opsSem, List.foldl, opSem_translate_zero,
        opSem_scale_one, opSem_rotate_zero trig h0, matMul_id_left,
        matMul_id_right]
    · have hex : px = cx := hpe.1
      have hey : py = cy := hpe.2
      subst hex
      subst hey
      simp only [Option.map_some', opsSem, List.foldl, opSem_translate_zero,
        opSem_scale_one, matMul_id_left, matMul_id_right]
  · obtain ⟨hx, hy⟩ := hT (x, y) rfl
    obtain ⟨ha, hax, hay⟩ := hR (a, px, py) rfl
    obtain hv := hS v rfl
    have hser : svgOps (canonStr (some (x, y)) (some (a, cx, cy)) (some v)) =
        some [.translate x y, .rotate a cx cy, .scale v v] :=
      svgOps_joinSp (.cons (partOk_tPart x y hx hy)
        (.cons (partOk_rPart a cx cy ha hcx hcy)
          (.cons (partOk_sPart v hv) .nil)))
    have hin : svgOps (canonStr (some (x, y)) (some (a, px, py)) (some v)) =
        some [.translate x y, .rotate a px py, .scale v v] :=
      svgOps_joinSp (.cons (partOk_tPart x y hx hy)
        (.cons (partOk_rPart a px py ha hax hay)
          (.cons (partOk_sPart v hv) .nil)))
    rw [hser, hin]
    rcases hpiv (a, px, py) rfl with hp0 | hpe
    · have ha0 : a = 0 := hp0
      subst ha0
      simp only [Option.map_some', opsSem, List.foldl, opSem_translate_zero,
        opSem_scale_one, opSem_rotate_zero trig h0, matMul_id_left,
        matMul_id_right]
    · have hex : px = cx := hpe.1
      have hey : py = cy := hpe.2
      subst hex
      subst hey
      simp only [Option.map_some', opsSem, List.foldl, opSem_translate_zero,
        opSem_scale_one, matMul_id_left, matMul_id_right]

/-- Witness: the round-trip theorem at `translate(10, 20) rotate(90, 5, 6)
scale(2)` with the serializer pivot equal to the rotation's own pivot
`(5, 6)`. -/
theorem transform_roundtrip_canonical_witness :
    parseTransform (canonStr (some (10, 20)) (some (90, 5, 6)) (some 2)) =
      some (canonState (some (10, 20)) (some (90, 5, 6)) (some 2)) :=
  (transform_roundtrip_canonical (some (10, 20)) (some (90, 5, 6)) (some 2) 5 6
    (fun p hp => by
      injection hp with hp
      subst hp
      exact ⟨by with_unfolding_all decide, by with_unfolding_all decide⟩)
    (fun p hp => by
      injection hp with hp
      subst hp
      exact ⟨by with_unfolding_all decide, by with_unfolding_all decide,
        by with_unfolding_all decide⟩)
    (fun v hv => by
      injection hv with hv
      subst hv
      with_unfolding_all decide)
    (by with_unfolding_all decide) (by with_unfolding_all decide)
    (fun p hp => by
      injection hp with hp
      subst hp
      exact Or.inr ⟨by with_unfolding_all decide,
        by with_unfolding_all decide⟩)).1

end SvgGen
